import Mathlib

/-!
Verification of core components of the vanguard2 DNS resolver against its
specification.  The definitions below are shallow embeddings of the Rust
sources: `src/iterator/util/message_helper.rs` (response classifier),
`src/iterator/iterator.rs` and `src/iterator/iter_event.rs` (the iterator
state machine and its events), `src/iterator/cache/message_cache.rs` and
`src/iterator/cache/message_cache_entry.rs` (the message cache),
`src/iterator/host_selector.rs` (the RTT based host selector).
Machine integers are modelled as `Nat`; `Instant`/`Duration` values are
modelled as natural numbers (seconds); fallible functions return
`Except`/`Option`.
-/

set_option maxHeartbeats 1000000

namespace Vanguard

/-! ## Basic DNS data model (the r53 message types, as the repository uses them)

A domain name is its list of labels, stored root-first, so that
`name.is_subdomain(zone)` from r53 becomes "the zone's labels are a prefix
of the name's labels" (a name is a subdomain of itself).  Labels are
opaque tokens (the embedded code only ever compares them), modelled as
naturals. -/

abbrev DName := List Nat

/-- r53 `Name::is_subdomain`: equal to the zone or below it. -/
def isSubdomain (n zone : DName) : Bool := zone.isPrefixOf n

/-- The resource record types the resolver inspects; every other type is
`other`. -/
inductive RRType where
  | a
  | aaaa
  | cname
  | ns
  | soa
  | other (code : Nat)
deriving DecidableEq, Repr

/-- Response codes the resolver inspects; every other code is `other`. -/
inductive Rcode where
  | noError
  | nxDomain
  | servFail
  | formErr
  | refused
  | other (code : Nat)
deriving DecidableEq, Repr

inductive Opcode where
  | query
  | other (code : Nat)
deriving DecidableEq, Repr

/-- Rdata: the classifier and the iterator only ever look inside CNAME
rdata (its target name); all other payloads are opaque. -/
inductive RData where
  | cnameData (target : DName)
  | aData (ip : Nat)
  | generic (payload : Nat)
deriving DecidableEq, Repr

structure RRset where
  name : DName
  typ : RRType
  ttl : Nat
  rdatas : List RData
deriving DecidableEq, Repr

structure Question where
  name : DName
  typ : RRType
deriving DecidableEq, Repr

/-- The header bits of an r53 `Message` the embedded code reads or writes
(counts are recomputed from the sections and are not stored separately). -/
structure Header where
  id : Nat
  qr : Bool
  aa : Bool
  ra : Bool
  rd : Bool
  opcode : Opcode
  rcode : Rcode
deriving DecidableEq, Repr

/-- An r53 `Message`: each record section is `Option (List RRset)` exactly
as r53 stores `Section(Option<Vec<RRset>>)`; `take_section` sets it to
`none`. -/
structure Message where
  header : Header
  question : Option Question
  answer : Option (List RRset)
  authority : Option (List RRset)
  additional : Option (List RRset)
deriving DecidableEq, Repr

/-- The record list of a section (`none` reads as empty). -/
def sectionList : Option (List RRset) → List RRset
  | none => []
  | some l => l

@[simp] theorem sectionList_none : sectionList none = [] := rfl
@[simp] theorem sectionList_some (l : List RRset) : sectionList (some l) = l := rfl

/-! ## Response classifier (`src/iterator/util/message_helper.rs`) -/

inductive ResponseCategory where
  | answer
  | cName
  | nxDomain
  | nxRRset
  | referral
  | serverFail
deriving DecidableEq, Repr

/-- The single CNAME target of an rrset: `some target` when the rdata
list is exactly one CNAME payload.  The source breaks out of the chain
walk when `rdatas.len() != 1` (its `unreachable!` arm would fire on a
single non-CNAME rdata under a CNAME type; here that also ends the
walk). -/
def cnameTarget? (r : RRset) : Option DName :=
  match r.rdatas with
  | [RData.cnameData t] => some t
  | _ => none

theorem cnameTarget?_eq_some {r : RRset} {t : DName} :
    cnameTarget? r = some t ↔ r.rdatas = [RData.cnameData t] := by
  unfold cnameTarget?
  split <;> simp_all

/-- The loop of `sanitize_cname_chain`: walks the rrsets from index `i`
with the name the previous link resolved to, the index of the last rrset
that was accepted (`lastValid`, initially 0 in the source) and returns
`(has_answer, last_valid_rrset_index)`. -/
def chainGo (qtype : RRType) : List RRset → DName → Nat → Nat → Bool × Nat
  | [], _, _, lastValid => (false, lastValid)
  | r :: rest, lastName, i, lastValid =>
    if r.name ≠ lastName then (false, lastValid)
    else if r.typ ≠ RRType.cname then
      if r.typ = qtype then (true, i) else (false, lastValid)
    else
      match cnameTarget? r with
      | some t => chainGo qtype rest t (i + 1) i
      | none => (false, lastValid)

/-- `sanitize_cname_chain`: returns `has_answer` and the truncated rrset
list (`rrsets.truncate(last_valid_rrset_index + 1)`). -/
def sanitize_cname_chain (qtype : RRType) (rrsets : List RRset) : Bool × List RRset :=
  match rrsets with
  | [] => (false, [])
  | r0 :: _ =>
    let res := chainGo qtype rrsets r0.name 0 0
    (res.1, rrsets.take (res.2 + 1))

/-- In-bailiwick filter used on all three sections (`retain(|rrset|
rrset.name.is_subdomain(zone))`). -/
def filterInZone (zone : DName) (l : List RRset) : List RRset :=
  l.filter (fun r => isSubdomain r.name zone)

/-- Answer-section handling of `sanitize_and_classify_response`: drop
out-of-zone rrsets; if any remain, the first must own the query name with
the query type or CNAME, and the kept chain decides Answer vs CName.
Returns the (possibly new) category, the new answer section, and
`has_answer`. -/
def answerStep (zone qname : DName) (qtype : RRType) (cat0 : ResponseCategory)
    (ans : Option (List RRset)) :
    Except String (ResponseCategory × Option (List RRset) × Bool) :=
  match ans with
  | none => .ok (cat0, none, false)
  | some rrsets0 =>
    match filterInZone zone rrsets0 with
    | [] => .ok (cat0, some [], false)
    | r0 :: rest =>
      if ¬ (r0.name = qname ∧ (r0.typ = qtype ∨ r0.typ = RRType.cname)) then
        .error "answer does not match query"
      else
        let chain := sanitize_cname_chain qtype (r0 :: rest)
        .ok ((if chain.1 then ResponseCategory.answer else ResponseCategory.cName),
             some chain.2, true)

/-- Drop out-of-zone rrsets from a section, and take the section away
(`take_section`) when nothing remains — used for authority and
additional. -/
def cleanSection (zone : DName) : Option (List RRset) → Option (List RRset)
  | none => none
  | some rrsets0 =>
    match filterInZone zone rrsets0 with
    | [] => none
    | r0 :: rest => some (r0 :: rest)

/-- Authority-section checks of `sanitize_and_classify_response` over the
already-cleaned section: at most one rrset; NXDomain needs an SOA;
NoError with answers and the AA flag needs an NS; NoError without answers
and an NS rrset makes the response a referral. -/
def authorityStep (rcode : Rcode) (aa : Bool) (hasAnswer : Bool)
    (cat1 : ResponseCategory) (auth1 : Option (List RRset)) :
    Except String ResponseCategory :=
  match auth1 with
  | none => .ok cat1
  | some [] => .ok cat1
  | some (a0 :: arest) =>
    if ¬ arest.isEmpty then .error "auth section has more than one rrset"
    else
      match rcode with
      | Rcode.nxDomain =>
        if ¬ (a0.typ = RRType.soa) then .error "nxdomain response has no valid soa"
        else .ok cat1
      | Rcode.noError =>
        if hasAnswer then
          if aa ∧ ¬ (a0.typ = RRType.ns) then .error "auth positive answer has no ns"
          else .ok cat1
        else
          if a0.typ = RRType.ns then .ok ResponseCategory.referral else .ok cat1
      | _ => .ok cat1

/-- Additional-section handling: drop out-of-zone rrsets; whatever
remains must be A or AAAA only. -/
def additionalStep (zone : DName) (add : Option (List RRset)) :
    Except String (Option (List RRset)) :=
  match add with
  | none => .ok none
  | some rrsets0 =>
    match filterInZone zone rrsets0 with
    | [] => .ok none
    | r0 :: rest =>
      if (r0 :: rest).all (fun r => r.typ = RRType.a ∨ r.typ = RRType.aaaa) then
        .ok (some (r0 :: rest))
      else .error "additional section has a non-address rrset"

/-- The section handling of `sanitize_and_classify_response` once the
question and the response code have been checked (`cat0` is the baseline
category derived from the rcode: NXRRset for NoError, NXDomain for
NXDomain). -/
def sanitizeSections (zone qname : DName) (qtype : RRType) (resp : Message)
    (cat0 : ResponseCategory) : Except String (ResponseCategory × Message) :=
  match answerStep zone qname qtype cat0 resp.answer with
  | .error e => .error e
  | .ok (cat1, newAnswer, hasAnswer) =>
    let auth1 := cleanSection zone resp.authority
    match authorityStep resp.header.rcode resp.header.aa hasAnswer cat1 auth1 with
    | .error e => .error e
    | .ok cat2 =>
      match additionalStep zone resp.additional with
      | .error e => .error e
      | .ok newAdditional =>
        .ok (cat2, { resp with answer := newAnswer, authority := auth1,
                               additional := newAdditional })

/-- `sanitize_and_classify_response`: validates the reply against the zone
and the question, filters every section to the bailiwick, classifies the
reply, and returns the sanitized message (the source mutates in place; the
embedding returns the new message).  `recalculate_header` only refreshes
the section counts, which the embedding does not store. -/
def sanitize_and_classify_response (zone qname : DName) (qtype : RRType)
    (resp : Message) : Except String (ResponseCategory × Message) :=
  if ¬ resp.header.qr then .error "not response message"
  else if ¬ (resp.header.opcode = Opcode.query) then .error "not a query message"
  else
    match resp.question with
    | none => .error "short of question"
    | some question =>
      if ¬ (question.name = qname ∧ question.typ = qtype) then
        .error "question does not match"
      else
        match resp.header.rcode with
        | Rcode.noError => sanitizeSections zone qname qtype resp ResponseCategory.nxRRset
        | Rcode.nxDomain => sanitizeSections zone qname qtype resp ResponseCategory.nxDomain
        | _ => .ok (ResponseCategory.serverFail, resp)

/-! ### Structure of the CNAME walk

`keepChain` is a structurally recursive reformulation of the loop of
`sanitize_cname_chain` past its first element: it returns the accepted
rrsets themselves instead of the index of the last accepted one.  It is
proved equal to the index-based source translation and used to reason
about the chain. -/

def keepChain (qtype : RRType) : DName → List RRset → Bool × List RRset
  | _, [] => (false, [])
  | nm, r :: rest =>
    if r.name ≠ nm then (false, [])
    else if r.typ ≠ RRType.cname then
      if r.typ = qtype then (true, [r]) else (false, [])
    else
      match cnameTarget? r with
      | some t =>
        let res := keepChain qtype t rest
        (res.1, r :: res.2)
      | none => (false, [])

theorem chainGo_eq_keepChain (qtype : RRType) :
    ∀ (l : List RRset) (nm : DName) (i : Nat),
      chainGo qtype l nm (i + 1) i =
        ((keepChain qtype nm l).1, i + (keepChain qtype nm l).2.length) := by
  intro l
  induction l with
  | nil => intro nm i; simp [chainGo, keepChain]
  | cons r rest ih =>
    intro nm i
    simp only [chainGo, keepChain]
    split
    · rfl
    · split
      · split <;> simp
      · split
        · rw [ih]
          simp only [List.length_cons, Prod.mk.injEq, true_and]
          omega
        · rfl

theorem keepChain_isTake (qtype : RRType) :
    ∀ (nm : DName) (l : List RRset),
      l.take (keepChain qtype nm l).2.length = (keepChain qtype nm l).2 := by
  intro nm l
  induction l generalizing nm with
  | nil => simp [keepChain]
  | cons r rest ih =>
    simp only [keepChain]
    split
    · rfl
    · split
      · split <;> simp
      · split
        · simp only [List.length_cons, List.take_succ_cons, List.cons.injEq, true_and]
          exact ih _
        · rfl

/-- `sanitize_cname_chain` in terms of `keepChain`: the head rrset is
always kept (the source's `last_valid_rrset_index` starts at 0), and the
walk continues along the head's CNAME target. -/
theorem sanitize_cname_chain_eq (qtype : RRType) (r0 : RRset) (rest : List RRset) :
    sanitize_cname_chain qtype (r0 :: rest) =
      if r0.typ ≠ RRType.cname then
        (if r0.typ = qtype then (true, [r0]) else (false, [r0]))
      else
        match cnameTarget? r0 with
        | some t =>
          ((keepChain qtype t rest).1, r0 :: (keepChain qtype t rest).2)
        | none => (false, [r0]) := by
  have hgo : chainGo qtype (r0 :: rest) r0.name 0 0 =
      (if r0.typ ≠ RRType.cname then
        (if r0.typ = qtype then (true, 0) else (false, 0))
      else
        match cnameTarget? r0 with
        | some t => chainGo qtype rest t 1 0
        | none => (false, 0)) := by
    simp [chainGo]
  simp only [sanitize_cname_chain, hgo]
  split
  · split
    · simp
    · simp
  · split
    · next t _ =>
      rw [show (1 : Nat) = 0 + 1 from rfl, chainGo_eq_keepChain qtype rest t 0]
      simp only [Nat.zero_add, List.take_succ_cons, Prod.mk.injEq, List.cons.injEq,
        true_and]
      exact keepChain_isTake qtype t rest
    · simp

/-- The CNAME-chain predicate: the list starts at `nm`, and every rrset
but possibly the last is a CNAME with a single rdata whose target owns
the next rrset. -/
def chainOK : DName → List RRset → Prop
  | _, [] => True
  | nm, [r] => r.name = nm
  | nm, r :: r2 :: rest =>
    r.name = nm ∧ r.typ = RRType.cname ∧
      ∃ t, r.rdatas = [RData.cnameData t] ∧ chainOK t (r2 :: rest)

theorem chainOK_cons {qname : DName} {r0 : RRset} {t : DName} {kept : List RRset}
    (h0 : r0.name = qname) (htyp : r0.typ = RRType.cname)
    (hrd : r0.rdatas = [RData.cnameData t]) (hk : chainOK t kept) :
    chainOK qname (r0 :: kept) := by
  cases kept with
  | nil => simpa [chainOK] using h0
  | cons k ks => exact ⟨h0, htyp, t, hrd, hk⟩

theorem keepChain_chainOK (qtype : RRType) :
    ∀ (nm : DName) (l : List RRset), chainOK nm (keepChain qtype nm l).2 := by
  intro nm l
  induction l generalizing nm with
  | nil => simp [keepChain, chainOK]
  | cons r rest ih =>
    simp only [keepChain]
    split
    · simp [chainOK]
    · next hname =>
      rw [ne_eq, not_not] at hname
      split
      · split
        · simpa [chainOK] using hname
        · simp [chainOK]
      · next htyp =>
        rw [ne_eq, not_not] at htyp
        split
        · next t ht =>
          exact chainOK_cons hname htyp (cnameTarget?_eq_some.1 ht) (ih t)
        · simp [chainOK]

theorem keepChain_true (qtype : RRType) :
    ∀ (nm : DName) (l : List RRset), (keepChain qtype nm l).1 = true →
      ∃ front last, (keepChain qtype nm l).2 = front ++ [last] ∧
        last.typ = qtype ∧ ¬ (last.typ = RRType.cname) := by
  intro nm l
  induction l generalizing nm with
  | nil => simp [keepChain]
  | cons r rest ih =>
    simp only [keepChain]
    split
    · simp
    · split
      · next htyp =>
        rw [ne_eq] at htyp
        split
        · next hq =>
          intro _
          exact ⟨[], r, rfl, hq, htyp⟩
        · simp
      · split
        · next t _ =>
          intro hb
          obtain ⟨front, last, hkeq, hq, hnc⟩ := ih t hb
          exact ⟨r :: front, last, by simp [hkeq], hq, hnc⟩
        · simp

theorem keepChain_false (qtype : RRType) :
    ∀ (nm : DName) (l : List RRset), (keepChain qtype nm l).1 = false →
      ∀ r ∈ (keepChain qtype nm l).2, r.typ = RRType.cname := by
  intro nm l
  induction l generalizing nm with
  | nil => simp [keepChain]
  | cons r rest ih =>
    simp only [keepChain]
    split
    · simp
    · split
      · split
        · simp
        · simp
      · next htyp =>
        rw [ne_eq, not_not] at htyp
        split
        · next t _ =>
          intro hb s hs
          rcases List.mem_cons.1 hs with h | h
          · rw [h]; exact htyp
          · exact ih t hb s h
        · intro _ s hs
          simp at hs


/-! ### Shape of a successful classification -/

theorem answerStep_ok {zone qname : DName} {qtype : RRType} {cat0 cat1 : ResponseCategory}
    {ans na : Option (List RRset)} {hasA : Bool}
    (h : answerStep zone qname qtype cat0 ans = .ok (cat1, na, hasA)) :
    (na = Option.map (filterInZone zone) ans ∧ filterInZone zone (sectionList ans) = [] ∧
      cat1 = cat0 ∧ hasA = false) ∨
    (∃ l r0 rest, ans = some l ∧ filterInZone zone l = r0 :: rest ∧
      r0.name = qname ∧ (r0.typ = qtype ∨ r0.typ = RRType.cname) ∧
      na = some (sanitize_cname_chain qtype (r0 :: rest)).2 ∧
      cat1 = (if (sanitize_cname_chain qtype (r0 :: rest)).1 then ResponseCategory.answer
              else ResponseCategory.cName) ∧ hasA = true) := by
  rcases ans with _ | l
  · simp only [answerStep, Except.ok.injEq, Prod.mk.injEq] at h
    obtain ⟨rfl, rfl, rfl⟩ := h
    left
    simp [filterInZone]
  · simp only [answerStep] at h
    split at h
    · next heq =>
      simp only [Except.ok.injEq, Prod.mk.injEq] at h
      obtain ⟨rfl, rfl, rfl⟩ := h
      left
      simp [heq]
    · next r0 rest heq =>
      split at h
      · exact absurd h (by simp)
      · next hc =>
        rw [not_not] at hc
        simp only [Except.ok.injEq, Prod.mk.injEq] at h
        obtain ⟨rfl, rfl, rfl⟩ := h
        right
        exact ⟨l, r0, rest, rfl, heq, hc.1, hc.2, rfl, rfl, rfl⟩

theorem authorityStep_ok {rcode : Rcode} {aa hasA : Bool} {cat1 cat2 : ResponseCategory}
    {auth1 : Option (List RRset)}
    (h : authorityStep rcode aa hasA cat1 auth1 = .ok cat2) :
    cat2 = cat1 ∨ (hasA = false ∧ cat2 = ResponseCategory.referral) := by
  unfold authorityStep at h
  repeat' split at h
  all_goals simp_all

theorem additionalStep_ok {zone : DName} {add na : Option (List RRset)}
    (h : additionalStep zone add = .ok na) : na = cleanSection zone add := by
  rcases add with _ | l
  · simp only [additionalStep, Except.ok.injEq] at h
    simp [cleanSection, h]
  · simp only [additionalStep] at h
    rcases hf : filterInZone zone l with _ | ⟨r0, rest⟩ <;> rw [hf] at h <;> dsimp only at h
    · simp only [Except.ok.injEq] at h
      simp [cleanSection, hf, h]
    · split at h
      · simp only [Except.ok.injEq] at h
        simp [cleanSection, hf, h]
      · exact absurd h (by simp)

theorem sanitizeSections_ok_shape {zone qname : DName} {qtype : RRType} {resp : Message}
    {cat0 cat : ResponseCategory} {out : Message}
    (h : sanitizeSections zone qname qtype resp cat0 = .ok (cat, out)) :
    out.header = resp.header ∧ out.question = resp.question ∧
    out.authority = cleanSection zone resp.authority ∧
    out.additional = cleanSection zone resp.additional ∧
    ((out.answer = Option.map (filterInZone zone) resp.answer ∧
        filterInZone zone (sectionList resp.answer) = [] ∧
        (cat = cat0 ∨ cat = ResponseCategory.referral)) ∨
     (∃ l r0 rest, resp.answer = some l ∧ filterInZone zone l = r0 :: rest ∧
        r0.name = qname ∧ (r0.typ = qtype ∨ r0.typ = RRType.cname) ∧
        out.answer = some (sanitize_cname_chain qtype (r0 :: rest)).2 ∧
        cat = (if (sanitize_cname_chain qtype (r0 :: rest)).1 then ResponseCategory.answer
               else ResponseCategory.cName))) := by
  unfold sanitizeSections at h
  rcases hans : answerStep zone qname qtype cat0 resp.answer with e | ⟨cat1, na, hasA⟩ <;>
    rw [hans] at h <;> dsimp only at h
  · exact absurd h (by simp)
  · rcases hauth : authorityStep resp.header.rcode resp.header.aa hasA cat1
        (cleanSection zone resp.authority) with e | cat2 <;>
      rw [hauth] at h <;> dsimp only at h
    · exact absurd h (by simp)
    · rcases hadd : additionalStep zone resp.additional with e | nadd <;>
        rw [hadd] at h <;> dsimp only at h
      · exact absurd h (by simp)
      · simp only [Except.ok.injEq, Prod.mk.injEq] at h
        obtain ⟨rfl, rfl⟩ := h
        refine ⟨rfl, rfl, rfl, additionalStep_ok hadd, ?_⟩
        rcases answerStep_ok hans with ⟨hna, hemp, rfl, rfl⟩ | ⟨l, r0, rest, hl, hf, hn, ht, hna, hcat, rfl⟩
        · left
          rcases authorityStep_ok hauth with rfl | ⟨_, rfl⟩
          · exact ⟨hna, hemp, Or.inl rfl⟩
          · exact ⟨hna, hemp, Or.inr rfl⟩
        · right
          rcases authorityStep_ok hauth with rfl | ⟨hfalse, _⟩
          · exact ⟨l, r0, rest, hl, hf, hn, ht, hna, hcat⟩
          · cases hfalse

theorem sanitize_ok_shape {zone qname : DName} {qtype : RRType} {resp : Message}
    {cat : ResponseCategory} {out : Message}
    (h : sanitize_and_classify_response zone qname qtype resp = .ok (cat, out)) :
    (cat = ResponseCategory.serverFail ∧ out = resp ∧
      ¬ (resp.header.rcode = Rcode.noError) ∧ ¬ (resp.header.rcode = Rcode.nxDomain)) ∨
    (out.header = resp.header ∧ out.question = resp.question ∧
      out.authority = cleanSection zone resp.authority ∧
      out.additional = cleanSection zone resp.additional ∧
      ((out.answer = Option.map (filterInZone zone) resp.answer ∧
          filterInZone zone (sectionList resp.answer) = [] ∧
          (cat = ResponseCategory.nxRRset ∨ cat = ResponseCategory.nxDomain ∨
           cat = ResponseCategory.referral)) ∨
       (∃ l r0 rest, resp.answer = some l ∧ filterInZone zone l = r0 :: rest ∧
          r0.name = qname ∧ (r0.typ = qtype ∨ r0.typ = RRType.cname) ∧
          out.answer = some (sanitize_cname_chain qtype (r0 :: rest)).2 ∧
          cat = (if (sanitize_cname_chain qtype (r0 :: rest)).1 then ResponseCategory.answer
                 else ResponseCategory.cName)))) := by
  unfold sanitize_and_classify_response at h
  split at h
  · exact absurd h (by simp)
  · split at h
    · exact absurd h (by simp)
    · split at h
      · exact absurd h (by simp)
      · split at h
        · exact absurd h (by simp)
        · split at h
          · next hrc =>
            rcases sanitizeSections_ok_shape h with ⟨h1, h2, h3, h4, hbr⟩
            right
            refine ⟨h1, h2, h3, h4, ?_⟩
            rcases hbr with ⟨ha, hb, hc⟩ | hB
            · left
              refine ⟨ha, hb, ?_⟩
              rcases hc with rfl | rfl
              · exact Or.inl rfl
              · exact Or.inr (Or.inr rfl)
            · exact Or.inr hB
          · next hrc =>
            rcases sanitizeSections_ok_shape h with ⟨h1, h2, h3, h4, hbr⟩
            right
            refine ⟨h1, h2, h3, h4, ?_⟩
            rcases hbr with ⟨ha, hb, hc⟩ | hB
            · left
              refine ⟨ha, hb, ?_⟩
              rcases hc with rfl | rfl
              · exact Or.inr (Or.inl rfl)
              · exact Or.inr (Or.inr rfl)
            · exact Or.inr hB
          · next h1 h2 =>
            simp only [Except.ok.injEq, Prod.mk.injEq] at h
            obtain ⟨rfl, rfl⟩ := h
            exact Or.inl ⟨rfl, rfl, h1, h2⟩


/-! ### Sublist and bailiwick helpers -/

theorem filterInZone_sublist (zone : DName) (l : List RRset) :
    List.Sublist (filterInZone zone l) l :=
  List.filter_sublist l

theorem mem_filterInZone {zone : DName} {l : List RRset} {r : RRset}
    (h : r ∈ filterInZone zone l) : isSubdomain r.name zone = true :=
  (List.mem_filter.1 h).2

theorem cleanSection_sublist (zone : DName) (o : Option (List RRset)) :
    List.Sublist (sectionList (cleanSection zone o)) (sectionList o) := by
  rcases o with _ | l
  · simp [cleanSection]
  · simp only [cleanSection, sectionList_some]
    rcases hf : filterInZone zone l with _ | ⟨r0, rest⟩ <;> dsimp only
    · simp
    · rw [← hf]
      exact filterInZone_sublist zone l

theorem mem_cleanSection {zone : DName} {o : Option (List RRset)} {r : RRset}
    (h : r ∈ sectionList (cleanSection zone o)) : isSubdomain r.name zone = true := by
  rcases o with _ | l
  · simp [cleanSection] at h
  · simp only [cleanSection] at h
    rcases hf : filterInZone zone l with _ | ⟨r0, rest⟩
    · rw [hf] at h
      dsimp only at h
      simp at h
    · rw [hf] at h
      dsimp only at h
      rw [← hf] at h
      exact mem_filterInZone h

theorem sanitize_cname_chain_sublist (qtype : RRType) (l : List RRset) :
    List.Sublist (sanitize_cname_chain qtype l).2 l := by
  rcases l with _ | ⟨r0, rest⟩
  · simp [sanitize_cname_chain]
  · simp only [sanitize_cname_chain]
    exact List.take_sublist _ _

/-- C2: for a NoError upstream response the classifier accepts with a
non-empty sanitized answer section, the kept answer records form a CNAME
chain starting at the query name (each non-terminal rrset is a CNAME with
a single rdata whose target owns the next rrset); the category is Answer
exactly when the terminal rrset is a non-CNAME of the query type, and
CName otherwise (in which case every kept rrset is a CNAME); the kept
answers are an initial segment of the in-bailiwick answers. -/
theorem c2_cname_chain_classification
    {zone qname : DName} {qtype : RRType} {resp out : Message} {cat : ResponseCategory}
    (h : sanitize_and_classify_response zone qname qtype resp = .ok (cat, out))
    (hrc : resp.header.rcode = Rcode.noError)
    (hne : ¬ (sectionList out.answer = [])) :
    ∃ front last, sectionList out.answer = front ++ [last] ∧
      chainOK qname (sectionList out.answer) ∧
      (cat = ResponseCategory.answer ∨ cat = ResponseCategory.cName) ∧
      (cat = ResponseCategory.answer ↔ (last.typ = qtype ∧ ¬ (last.typ = RRType.cname))) ∧
      (cat = ResponseCategory.cName → ∀ r ∈ sectionList out.answer, r.typ = RRType.cname) ∧
      (∃ suffix, filterInZone zone (sectionList resp.answer) = sectionList out.answer ++ suffix) := by
  rcases sanitize_ok_shape h with ⟨_, _, hno, _⟩ | ⟨_, _, _, _, hbr⟩
  · exact absurd hrc hno
  · rcases hbr with ⟨hans, hemp, _⟩ | ⟨l, r0, rest, hl, hf, hn, ht, hans, hcat⟩
    · exfalso
      apply hne
      rcases hav : resp.answer with _ | l
      · rw [hav] at hans
        simp [hans]
      · rw [hav] at hans hemp
        rw [hans]
        simpa using hemp
    · rw [hl, sectionList_some, hf]
      rw [sanitize_cname_chain_eq] at hans hcat
      by_cases h0 : r0.typ = RRType.cname
      · simp only [h0, ne_eq, not_true_eq_false, if_false] at hans hcat
        rcases hct : cnameTarget? r0 with _ | t
        · -- CNAME head without a single CNAME rdata: only the head is kept
          rw [hct] at hans hcat
          dsimp only at hans hcat
          rw [if_neg (by decide)] at hcat
          subst hcat
          rw [hans, sectionList_some]
          refine ⟨[], r0, rfl, by simpa [chainOK] using hn, Or.inr rfl, ?_, ?_, rest, rfl⟩
          · constructor
            · intro hx; exact absurd hx (by decide)
            · rintro ⟨_, hxc⟩; exact absurd h0 hxc
          · intro _ r hr
            simp only [List.mem_singleton] at hr
            rw [hr]; exact h0
        · -- proper CNAME head: the walk continues from its target
          rw [hct] at hans hcat
          dsimp only at hans hcat
          rw [hans, sectionList_some]
          have hchain : chainOK qname (r0 :: (keepChain qtype t rest).2) :=
            chainOK_cons hn h0 (cnameTarget?_eq_some.1 hct) (keepChain_chainOK qtype t rest)
          have hsuf : r0 :: rest = (r0 :: (keepChain qtype t rest).2) ++
              rest.drop (keepChain qtype t rest).2.length := by
            rw [List.cons_append]
            conv_lhs => rw [← List.take_append_drop (keepChain qtype t rest).2.length rest]
            rw [keepChain_isTake]
          cases hb : (keepChain qtype t rest).1 with
          | false =>
            rw [hb, if_neg (by decide)] at hcat
            subst hcat
            have hall : ∀ r ∈ r0 :: (keepChain qtype t rest).2, r.typ = RRType.cname := by
              intro r hr
              rcases List.mem_cons.1 hr with hr | hr
              · rw [hr]; exact h0
              · exact keepChain_false qtype t rest hb r hr
            have hnil : r0 :: (keepChain qtype t rest).2 ≠ [] := by simp
            refine ⟨(r0 :: (keepChain qtype t rest).2).dropLast,
                    (r0 :: (keepChain qtype t rest).2).getLast hnil,
                    (List.dropLast_append_getLast hnil).symm, hchain, Or.inr rfl, ?_, ?_, ?_⟩
            · constructor
              · intro hx; exact absurd hx (by decide)
              · rintro ⟨_, hxc⟩
                exact absurd (hall _ (List.getLast_mem hnil)) hxc
            · intro _ r hr
              exact hall r hr
            · exact ⟨rest.drop (keepChain qtype t rest).2.length, hsuf⟩
          | true =>
            rw [hb, if_pos rfl] at hcat
            subst hcat
            obtain ⟨front2, last, hk, hq, hnc⟩ := keepChain_true qtype t rest hb
            refine ⟨r0 :: front2, last, by rw [hk]; rfl, hchain, Or.inl rfl, ?_, ?_, ?_⟩
            · exact ⟨fun _ => ⟨hq, hnc⟩, fun _ => rfl⟩
            · intro hx; exact absurd hx (by decide)
            · exact ⟨rest.drop (keepChain qtype t rest).2.length, hsuf⟩
      · -- non-CNAME head: it must be of the query type, and is the whole answer
        have hq : r0.typ = qtype := ht.resolve_right h0
        simp only [ne_eq, h0, not_false_eq_true, if_true] at hans hcat
        rw [if_pos hq] at hans hcat
        dsimp only at hans hcat
        rw [if_pos rfl] at hcat
        subst hcat
        rw [hans, sectionList_some]
        refine ⟨[], r0, rfl, by simpa [chainOK] using hn, Or.inl rfl, ?_, ?_, rest, rfl⟩
        · exact ⟨fun _ => ⟨hq, h0⟩, fun _ => rfl⟩
        · intro hx; exact absurd hx (by decide)

/-! ### C3: section shrinking and bailiwick -/

/-- The literal form of claim C3: on every accepted response each output
section is a subsequence of the input section, and every kept rrset is
in-bailiwick — with no exception for the ServerFail early return. -/
def classifierClaimC3 : Prop :=
  ∀ (zone qname : DName) (qtype : RRType) (resp out : Message) (cat : ResponseCategory),
    sanitize_and_classify_response zone qname qtype resp = .ok (cat, out) →
    (List.Sublist (sectionList out.answer) (sectionList resp.answer) ∧
     List.Sublist (sectionList out.authority) (sectionList resp.authority) ∧
     List.Sublist (sectionList out.additional) (sectionList resp.additional)) ∧
    ∀ r, (r ∈ sectionList out.answer ∨ r ∈ sectionList out.authority ∨
          r ∈ sectionList out.additional) → isSubdomain r.name zone = true

def c3zone : DName := [1]

/-- An answer rrset whose owner is not below the zone `[1]`. -/
def c3evil : RRset := { name := [2, 3], typ := RRType.a, ttl := 300, rdatas := [RData.aData 9] }

/-- A Refused reply carrying an out-of-zone answer rrset: the classifier
returns ServerFail before any section is filtered. -/
def c3resp : Message :=
  { header := { id := 7, qr := true, aa := false, ra := false, rd := false,
                opcode := Opcode.query, rcode := Rcode.refused },
    question := some { name := [1, 5], typ := RRType.a },
    answer := some [c3evil], authority := none, additional := none }

/-- C3 counterexample: on a Refused reply the classifier returns the
category ServerFail with the message untouched, so the out-of-zone answer
rrset survives, contradicting the unconditional bailiwick clause. -/
theorem c3_counterexample : ¬ classifierClaimC3 := by
  intro hc
  have h := (hc c3zone [1, 5] RRType.a c3resp c3resp ResponseCategory.serverFail rfl).2
      c3evil (Or.inl (by simp [c3resp]))
  simp [isSubdomain, c3evil, c3zone, List.isPrefixOf] at h

/-- C3 (amended): each output section is a subsequence of its input
section, and — for every category other than ServerFail, whose early
return leaves the message untouched — every kept rrset owner is a
subdomain of the zone. -/
theorem c3_sections_shrink_and_stay_in_zone
    {zone qname : DName} {qtype : RRType} {resp out : Message} {cat : ResponseCategory}
    (h : sanitize_and_classify_response zone qname qtype resp = .ok (cat, out)) :
    (List.Sublist (sectionList out.answer) (sectionList resp.answer) ∧
     List.Sublist (sectionList out.authority) (sectionList resp.authority) ∧
     List.Sublist (sectionList out.additional) (sectionList resp.additional)) ∧
    (¬ (cat = ResponseCategory.serverFail) →
      ∀ r, (r ∈ sectionList out.answer ∨ r ∈ sectionList out.authority ∨
            r ∈ sectionList out.additional) → isSubdomain r.name zone = true) := by
  rcases sanitize_ok_shape h with ⟨hcat, rfl, _, _⟩ | ⟨_, _, hauth, hadd, hbr⟩
  · exact ⟨⟨List.Sublist.refl _, List.Sublist.refl _, List.Sublist.refl _⟩,
      fun hx => absurd hcat hx⟩
  · constructor
    · refine ⟨?_, ?_, ?_⟩
      · rcases hbr with ⟨hans, _, _⟩ | ⟨l, r0, rest, hl, hf, _, _, hans, _⟩
        · rw [hans]
          rcases resp.answer with _ | l
          · simp
          · simpa using filterInZone_sublist zone l
        · rw [hans, hl, sectionList_some, sectionList_some]
          exact (sanitize_cname_chain_sublist qtype (r0 :: rest)).trans
            (hf ▸ filterInZone_sublist zone l)
      · rw [hauth]
        exact cleanSection_sublist zone resp.authority
      · rw [hadd]
        exact cleanSection_sublist zone resp.additional
    · intro _ r hr
      rcases hr with hr | hr | hr
      · rcases hbr with ⟨hans, _, _⟩ | ⟨l, r0, rest, hl, hf, _, _, hans, _⟩
        · rw [hans] at hr
          rcases hav : resp.answer with _ | l
          · rw [hav] at hr
            simp at hr
          · rw [hav] at hr
            simp only [Option.map_some', sectionList_some] at hr
            exact mem_filterInZone hr
        · rw [hans, sectionList_some] at hr
          have hmem : r ∈ r0 :: rest :=
            (sanitize_cname_chain_sublist qtype (r0 :: rest)).subset hr
          rw [← hf] at hmem
          exact mem_filterInZone hmem
      · rw [hauth] at hr
        exact mem_cleanSection hr
      · rw [hadd] at hr
        exact mem_cleanSection hr

/-- Witness for the amended C3 at the concrete Refused reply. -/
theorem c3_sections_witness :
    (List.Sublist (sectionList c3resp.answer) (sectionList c3resp.answer) ∧
     List.Sublist (sectionList c3resp.authority) (sectionList c3resp.authority) ∧
     List.Sublist (sectionList c3resp.additional) (sectionList c3resp.additional)) ∧
    (¬ (ResponseCategory.serverFail = ResponseCategory.serverFail) →
      ∀ r, (r ∈ sectionList c3resp.answer ∨ r ∈ sectionList c3resp.authority ∨
            r ∈ sectionList c3resp.additional) → isSubdomain r.name c3zone = true) :=
  @c3_sections_shrink_and_stay_in_zone c3zone [1, 5] RRType.a c3resp c3resp
    ResponseCategory.serverFail rfl

/-! ### C2 witness -/

def w2rr : RRset := { name := [1, 2], typ := RRType.a, ttl := 300, rdatas := [RData.aData 5] }

/-- A NoError reply answering the question directly. -/
def w2resp : Message :=
  { header := { id := 3, qr := true, aa := false, ra := false, rd := false,
                opcode := Opcode.query, rcode := Rcode.noError },
    question := some { name := [1, 2], typ := RRType.a },
    answer := some [w2rr], authority := none, additional := none }

/-- Witness for C2 at a concrete single-answer NoError reply. -/
theorem c2_cname_chain_witness :
    ∃ front last, sectionList w2resp.answer = front ++ [last] ∧
      chainOK [1, 2] (sectionList w2resp.answer) ∧
      (ResponseCategory.answer = ResponseCategory.answer ∨
       ResponseCategory.answer = ResponseCategory.cName) ∧
      (ResponseCategory.answer = ResponseCategory.answer ↔
        (last.typ = RRType.a ∧ ¬ (last.typ = RRType.cname))) ∧
      (ResponseCategory.answer = ResponseCategory.cName →
        ∀ r ∈ sectionList w2resp.answer, r.typ = RRType.cname) ∧
      (∃ suffix, filterInZone [1] (sectionList w2resp.answer) =
        sectionList w2resp.answer ++ suffix) :=
  @c2_cname_chain_classification [1] [1, 2] RRType.a w2resp w2resp
    ResponseCategory.answer rfl rfl (by decide)

/-! ### Concrete checks of the chain walk (the source's unit tests) -/

theorem sanitize_cname_chain_check1 :
    sanitize_cname_chain RRType.a
      [⟨[0, 1], RRType.cname, 3600, [RData.cnameData [0, 2]]⟩,
       ⟨[0, 2], RRType.cname, 3600, [RData.cnameData [0, 3]]⟩,
       ⟨[0, 4], RRType.cname, 3600, [RData.cnameData [0, 3]]⟩,
       ⟨[0, 3], RRType.cname, 3600, [RData.cnameData [0, 4]]⟩] =
    (false, [⟨[0, 1], RRType.cname, 3600, [RData.cnameData [0, 2]]⟩,
             ⟨[0, 2], RRType.cname, 3600, [RData.cnameData [0, 3]]⟩]) := by decide

theorem sanitize_cname_chain_check2 :
    sanitize_cname_chain RRType.a
      [⟨[0, 1], RRType.cname, 3600, [RData.cnameData [0, 2]]⟩,
       ⟨[0, 2], RRType.cname, 3600, [RData.cnameData [0, 3]]⟩,
       ⟨[0, 3], RRType.a, 3600, [RData.aData 2]⟩,
       ⟨[0, 3], RRType.a, 3600, [RData.aData 3]⟩,
       ⟨[0, 5], RRType.a, 3600, [RData.aData 3]⟩] =
    (true, [⟨[0, 1], RRType.cname, 3600, [RData.cnameData [0, 2]]⟩,
            ⟨[0, 2], RRType.cname, 3600, [RData.cnameData [0, 3]]⟩,
            ⟨[0, 3], RRType.a, 3600, [RData.aData 2]⟩]) := by decide

theorem sanitize_cname_chain_check3 :
    sanitize_cname_chain RRType.a
      [⟨[0, 3], RRType.a, 3600, [RData.aData 2]⟩,
       ⟨[0, 3], RRType.a, 3600, [RData.aData 3]⟩] =
    (true, [⟨[0, 3], RRType.a, 3600, [RData.aData 2]⟩]) := by decide


/-! ## A model of the `lru` crate's `LruCache`

The caches and the host selector store their entries in an
`lru::LruCache`.  It is modelled as an association list ordered by
recency (head = most recently used) plus a capacity: `get`/`get_mut`
promote the entry they find, `put` replaces-and-promotes an existing key
or inserts at the front (evicting the least recently used entry when
full), `pop` removes a key. -/

def alookup {K V : Type} [DecidableEq K] (k : K) : List (K × V) → Option V
  | [] => none
  | e :: rest => if e.1 = k then some e.2 else alookup k rest

def eraseKey {K V : Type} [DecidableEq K] (k : K) : List (K × V) → List (K × V)
  | [] => []
  | e :: rest => if e.1 = k then rest else e :: eraseKey k rest

structure LruCache (K V : Type) where
  cap : Nat
  entries : List (K × V)
deriving DecidableEq, Repr

namespace LruCache

variable {K V : Type} [DecidableEq K]

def empty (cap : Nat) : LruCache K V := ⟨cap, []⟩

/-- `get`: returns the value and moves the entry to the most recently
used position. -/
def get (c : LruCache K V) (k : K) : Option V × LruCache K V :=
  match alookup k c.entries with
  | none => (none, c)
  | some v => (some v, ⟨c.cap, (k, v) :: eraseKey k c.entries⟩)

/-- `get_mut` followed by an in-place update `f` (also promotes);
returns the old value when the key was present. -/
def adjust (c : LruCache K V) (k : K) (f : V → V) : Option V × LruCache K V :=
  match alookup k c.entries with
  | none => (none, c)
  | some v => (some v, ⟨c.cap, (k, f v) :: eraseKey k c.entries⟩)

/-- `put`: replaces and promotes an existing key; otherwise inserts at
the front, evicting the least recently used entry when the cache is
full. -/
def put (c : LruCache K V) (k : K) (v : V) : LruCache K V :=
  match alookup k c.entries with
  | some _ => ⟨c.cap, (k, v) :: eraseKey k c.entries⟩
  | none =>
    if c.cap ≤ c.entries.length then ⟨c.cap, (k, v) :: c.entries.dropLast⟩
    else ⟨c.cap, (k, v) :: c.entries⟩

/-- `pop`: removes the entry. -/
def pop (c : LruCache K V) (k : K) : LruCache K V := ⟨c.cap, eraseKey k c.entries⟩

end LruCache

@[simp] theorem alookup_nil {K V : Type} [DecidableEq K] (k : K) :
    alookup k ([] : List (K × V)) = none := rfl

theorem alookup_cons {K V : Type} [DecidableEq K] (k k1 : K) (v1 : V) (rest : List (K × V)) :
    alookup k ((k1, v1) :: rest) = if k1 = k then some v1 else alookup k rest := rfl

theorem eraseKey_cons {K V : Type} [DecidableEq K] (k k1 : K) (v1 : V) (rest : List (K × V)) :
    eraseKey k ((k1, v1) :: rest) = if k1 = k then rest else (k1, v1) :: eraseKey k rest := rfl

theorem alookup_mem {K V : Type} [DecidableEq K] {k : K} {v : V} :
    ∀ {l : List (K × V)}, alookup k l = some v → (k, v) ∈ l := by
  intro l
  induction l with
  | nil => intro h; cases h
  | cons e rest ih =>
    intro h
    rcases e with ⟨k1, v1⟩
    rw [alookup_cons] at h
    by_cases hk : k1 = k
    · rw [if_pos hk] at h
      injection h with hv
      subst hk
      subst hv
      exact List.mem_cons_self _ _
    · rw [if_neg hk] at h
      exact List.mem_cons_of_mem _ (ih h)

theorem eraseKey_sublist {K V : Type} [DecidableEq K] (k : K) :
    ∀ (l : List (K × V)), List.Sublist (eraseKey k l) l := by
  intro l
  induction l with
  | nil => exact List.Sublist.refl _
  | cons e rest ih =>
    simp only [eraseKey]
    split
    · exact List.Sublist.cons _ (List.Sublist.refl _)
    · exact List.Sublist.cons₂ _ ih

theorem alookup_promote {K V : Type} [DecidableEq K] {k : K} {v : V} :
    ∀ {l : List (K × V)}, alookup k l = some v →
      ∀ k2, alookup k2 ((k, v) :: eraseKey k l) = alookup k2 l := by
  intro l
  induction l with
  | nil => intro h; cases h
  | cons e rest ih =>
    intro h k2
    rcases e with ⟨k1, v1⟩
    rw [alookup_cons] at h
    by_cases hk : k1 = k
    · rw [if_pos hk] at h
      injection h with hv
      subst hk
      subst hv
      rw [eraseKey_cons, if_pos rfl]
    · rw [if_neg hk] at h
      rw [eraseKey_cons, if_neg hk]
      by_cases h2 : k = k2
      · subst h2
        rw [alookup_cons, if_pos rfl, alookup_cons, if_neg hk, h]
      · have ihk := ih h k2
        rw [alookup_cons, if_neg h2] at ihk
        rw [alookup_cons, if_neg h2, alookup_cons, alookup_cons]
        by_cases h1 : k1 = k2
        · rw [if_pos h1, if_pos h1]
        · rw [if_neg h1, if_neg h1]
          exact ihk

theorem promote_perm {K V : Type} [DecidableEq K] {k : K} {v : V} :
    ∀ {l : List (K × V)}, alookup k l = some v →
      List.Perm ((k, v) :: eraseKey k l) l := by
  intro l
  induction l with
  | nil => intro h; cases h
  | cons e rest ih =>
    intro h
    rcases e with ⟨k1, v1⟩
    rw [alookup_cons] at h
    by_cases hk : k1 = k
    · rw [if_pos hk] at h
      injection h with hv
      subst hk
      subst hv
      rw [eraseKey_cons, if_pos rfl]
    · rw [if_neg hk] at h
      rw [eraseKey_cons, if_neg hk]
      exact (List.Perm.swap _ _ _).trans (List.Perm.cons _ (ih h))

/-! ## Host selector (`src/iterator/host_selector.rs`)

Durations and instants are naturals counted in seconds. -/

def SERVER_INIT_RTT : Nat := 0

def TIMECOUNT_SERVER_SLEEP_TIME : Nat := 60

def MAX_TIMEOUT_COUNT : Nat := 3

abbrev Host := Nat

structure HostState where
  rtt : Nat
  timeoutCount : Nat
  wakeupTime : Option Nat
deriving DecidableEq, Repr

namespace HostState

def new (rtt : Nat) : HostState := ⟨rtt, 0, none⟩

def timeout (d : Nat) : HostState := ⟨d, 1, none⟩

/-- `(7 * last + 3 * now) / 10` (the source's checked `Duration`
arithmetic never overflows `Nat`). -/
def calculateRtt (last now : Nat) : Nat := (7 * last + 3 * now) / 10

def setRtt (s : HostState) (rtt : Nat) : HostState :=
  let s1 := if 0 < s.timeoutCount then { s with timeoutCount := 0, wakeupTime := none } else s
  { s1 with rtt := calculateRtt s1.rtt rtt }

/-- `set_timout` (source spelling): below the timeout ceiling, count the
timeout and blend it into the RTT; at the ceiling, re-arm the wake-up
time. -/
def setTimout (s : HostState) (d : Nat) (now : Nat) : HostState :=
  let s1 := if s.timeoutCount < MAX_TIMEOUT_COUNT then
      { s with timeoutCount := s.timeoutCount + 1, rtt := calculateRtt s.rtt d }
    else s
  if s1.timeoutCount = MAX_TIMEOUT_COUNT then
    { s1 with wakeupTime := some (now + TIMECOUNT_SERVER_SLEEP_TIME) }
  else s1

/-- `Instant::now() > wakeup_time`. -/
def isUsable (s : HostState) (now : Nat) : Bool :=
  match s.wakeupTime with
  | some w => w < now
  | none => true

def getRtt (s : HostState) : Nat := s.rtt

end HostState

structure RTTBasedHostSelector where
  hostAndRtt : LruCache Host HostState
deriving DecidableEq, Repr

namespace RTTBasedHostSelector

def new (cap : Nat) : RTTBasedHostSelector := ⟨LruCache.empty cap⟩

def getRtt (s : RTTBasedHostSelector) (host : Host) : Nat :=
  match alookup host s.hostAndRtt.entries with
  | some st => st.getRtt
  | none => SERVER_INIT_RTT

def isHostUsable (s : RTTBasedHostSelector) (host : Host) (now : Nat) : Bool :=
  match alookup host s.hostAndRtt.entries with
  | some st => st.isUsable now
  | none => true

def setRtt (s : RTTBasedHostSelector) (host : Host) (rtt : Nat) : RTTBasedHostSelector :=
  let r := s.hostAndRtt.adjust host (fun st => st.setRtt rtt)
  match r.1 with
  | some _ => ⟨r.2⟩
  | none => ⟨s.hostAndRtt.put host (HostState.new rtt)⟩

def setTimeout (s : RTTBasedHostSelector) (host : Host) (d : Nat) (now : Nat) :
    RTTBasedHostSelector :=
  let r := s.hostAndRtt.adjust host (fun st => st.setTimout d now)
  match r.1 with
  | some _ => ⟨r.2⟩
  | none => ⟨s.hostAndRtt.put host (HostState.timeout d)⟩

/-- Rust `Iterator::min_by` keeps the first element among equal minima. -/
def minByRtt (s : RTTBasedHostSelector) : List Host → Option Host
  | [] => none
  | h :: rest =>
    some (rest.foldl (fun acc x => if s.getRtt x < s.getRtt acc then x else acc) h)

/-- `select`: the minimum-RTT host among the currently usable ones. -/
def select (s : RTTBasedHostSelector) (hosts : List Host) (now : Nat) : Option Host :=
  minByRtt s (hosts.filter (fun h => s.isHostUsable h now))

end RTTBasedHostSelector

/-- The update operations a selector sees (`select` is read-only);
`timeout` records the instant at which it happened. -/
inductive SelOp where
  | rtt (host : Host) (d : Nat)
  | timeout (host : Host) (d : Nat) (now : Nat)

def applySelOp (s : RTTBasedHostSelector) : SelOp → RTTBasedHostSelector
  | .rtt h d => s.setRtt h d
  | .timeout h d now => s.setTimeout h d now

def runSelector (cap : Nat) (ops : List SelOp) : RTTBasedHostSelector :=
  ops.foldl applySelOp (RTTBasedHostSelector.new cap)

/-! ### Host-state facts -/

/-- The per-host invariant: at most `MAX_TIMEOUT_COUNT` consecutive
timeouts, and a wake-up time is armed only at the ceiling. -/
def StInvP (st : HostState) : Prop :=
  st.timeoutCount ≤ 3 ∧ (st.wakeupTime ≠ none → st.timeoutCount = 3)

theorem setRtt_state (s : HostState) (d : Nat)
    (hw : s.wakeupTime ≠ none → 0 < s.timeoutCount) :
    (s.setRtt d).wakeupTime = none ∧ (s.setRtt d).timeoutCount = 0 := by
  simp only [HostState.setRtt]
  by_cases h : 0 < s.timeoutCount
  · rw [if_pos h]
    exact ⟨rfl, rfl⟩
  · rw [if_neg h]
    have hwn : s.wakeupTime = none := by
      rcases hs : s.wakeupTime with _ | w
      · rfl
      · exact absurd (hw (by rw [hs]; simp)) h
    exact ⟨hwn, by omega⟩

theorem setTimout_count (s : HostState) (d now : Nat) (hle : s.timeoutCount ≤ 3) :
    (s.setTimout d now).timeoutCount = min (s.timeoutCount + 1) 3 := by
  simp only [HostState.setTimout, MAX_TIMEOUT_COUNT]
  by_cases h : s.timeoutCount < 3
  · rw [if_pos h]
    dsimp only
    by_cases h3 : s.timeoutCount + 1 = 3
    · rw [if_pos h3]
      dsimp only
      omega
    · rw [if_neg h3]
      dsimp only
      omega
  · rw [if_neg h]
    rw [if_pos (by omega : s.timeoutCount = 3)]
    dsimp only
    omega

theorem setTimout_third (s : HostState) (d now : Nat)
    (h2 : 2 ≤ s.timeoutCount) (h3 : s.timeoutCount ≤ 3) :
    (s.setTimout d now).wakeupTime = some (now + TIMECOUNT_SERVER_SLEEP_TIME) := by
  simp only [HostState.setTimout, MAX_TIMEOUT_COUNT]
  by_cases h : s.timeoutCount < 3
  · rw [if_pos h, if_pos (by first | omega | (dsimp only; omega))]
  · rw [if_neg h, if_pos (by omega)]

theorem setTimout_inv (s : HostState) (d now : Nat) (hs : StInvP s) :
    StInvP (s.setTimout d now) := by
  obtain ⟨hle, hw⟩ := hs
  simp only [StInvP, HostState.setTimout, MAX_TIMEOUT_COUNT]
  by_cases h : s.timeoutCount < 3
  · rw [if_pos h]
    by_cases h3 : s.timeoutCount + 1 = 3
    · rw [if_pos (by first | omega | (dsimp only; omega))]
      exact ⟨by first | omega | (dsimp only; omega), fun _ => by first | omega | (dsimp only; omega)⟩
    · rw [if_neg (by first | omega | (dsimp only; omega))]
      refine ⟨by first | omega | (dsimp only; omega), fun hne => ?_⟩
      exact absurd (hw hne) (by omega)
  · rw [if_neg h, if_pos (by omega)]
    exact ⟨by first | omega | (dsimp only; omega), fun _ => by first | omega | (dsimp only; omega)⟩

theorem setRtt_StInvP (s : HostState) (d : Nat) (hs : StInvP s) : StInvP (s.setRtt d) := by
  obtain ⟨h1, h2⟩ := setRtt_state s d (fun hne => by have := hs.2 hne; omega)
  exact ⟨by omega, fun hne => absurd h1 (by intro hx; exact hne hx)⟩

theorem StInvP_new (d : Nat) : StInvP (HostState.new d) :=
  ⟨by simp [HostState.new], fun hne => absurd rfl hne⟩

theorem StInvP_timeout (d : Nat) : StInvP (HostState.timeout d) :=
  ⟨by simp [HostState.timeout], fun hne => absurd rfl hne⟩

/-! ### Selector invariant -/

def selInv (s : RTTBasedHostSelector) : Prop :=
  ∀ e ∈ s.hostAndRtt.entries, StInvP e.2

theorem mem_put_entries {K V : Type} [DecidableEq K] {c : LruCache K V} {k : K} {v : V}
    {e : K × V} (he : e ∈ (c.put k v).entries) : e = (k, v) ∨ e ∈ c.entries := by
  unfold LruCache.put at he
  rcases hlk : alookup k c.entries with _ | v0 <;> rw [hlk] at he <;> dsimp only at he
  · split at he
    · rcases List.mem_cons.1 he with h | h
      · exact Or.inl h
      · exact Or.inr ((List.dropLast_sublist _).subset h)
    · rcases List.mem_cons.1 he with h | h
      · exact Or.inl h
      · exact Or.inr h
  · rcases List.mem_cons.1 he with h | h
    · exact Or.inl h
    · exact Or.inr ((eraseKey_sublist k _).subset h)

theorem selInv_preserved (s : RTTBasedHostSelector) (op : SelOp) (hs : selInv s) :
    selInv (applySelOp s op) := by
  cases op with
  | rtt h0 d =>
    intro e he
    simp only [applySelOp, RTTBasedHostSelector.setRtt, LruCache.adjust] at he
    rcases hlk : alookup h0 s.hostAndRtt.entries with _ | st <;> rw [hlk] at he <;>
      (try dsimp only at he)
    · rcases mem_put_entries he with rfl | h
      · exact StInvP_new d
      · exact hs _ h
    · rcases List.mem_cons.1 he with rfl | h
      · exact setRtt_StInvP st d (hs _ (alookup_mem hlk))
      · exact hs _ ((eraseKey_sublist h0 _).subset h)
  | timeout h0 d now =>
    intro e he
    simp only [applySelOp, RTTBasedHostSelector.setTimeout, LruCache.adjust] at he
    rcases hlk : alookup h0 s.hostAndRtt.entries with _ | st <;> rw [hlk] at he <;>
      (try dsimp only at he)
    · rcases mem_put_entries he with rfl | h
      · exact StInvP_timeout d
      · exact hs _ h
    · rcases List.mem_cons.1 he with rfl | h
      · exact setTimout_inv st d now (hs _ (alookup_mem hlk))
      · exact hs _ ((eraseKey_sublist h0 _).subset h)

theorem runSelector_inv (cap : Nat) (ops : List SelOp) : selInv (runSelector cap ops) := by
  have hgen : ∀ (l : List SelOp) (s : RTTBasedHostSelector), selInv s →
      selInv (l.foldl applySelOp s) := by
    intro l
    induction l with
    | nil => intro s hs; exact hs
    | cons op rest ih =>
      intro s hs
      exact ih _ (selInv_preserved s op hs)
  exact hgen ops _ (by intro e he; simp [RTTBasedHostSelector.new, LruCache.empty] at he)

/-! ### Lookups after updates -/

theorem setRtt_lookup (s : RTTBasedHostSelector) (h0 : Host) (d : Nat) (hs : selInv s) :
    ∃ st, alookup h0 (s.setRtt h0 d).hostAndRtt.entries = some st ∧
      st.wakeupTime = none := by
  rcases hlk : alookup h0 s.hostAndRtt.entries with _ | st
  · refine ⟨HostState.new d, ?_, rfl⟩
    simp only [RTTBasedHostSelector.setRtt, LruCache.adjust, hlk]
    simp only [LruCache.put, hlk]
    split <;> rw [alookup_cons, if_pos rfl]
  · have hsti : StInvP st := hs _ (alookup_mem hlk)
    refine ⟨st.setRtt d, ?_,
      (setRtt_state st d (fun hne => by have := hsti.2 hne; omega)).1⟩
    simp only [RTTBasedHostSelector.setRtt, LruCache.adjust, hlk]
    rw [alookup_cons, if_pos rfl]

theorem setTimeout_lookup (s : RTTBasedHostSelector) (h0 : Host) (d now : Nat) :
    ∃ st1, alookup h0 (s.setTimeout h0 d now).hostAndRtt.entries = some st1 ∧
      ((alookup h0 s.hostAndRtt.entries = none ∧ st1 = HostState.timeout d) ∨
       (∃ st0, alookup h0 s.hostAndRtt.entries = some st0 ∧ st1 = st0.setTimout d now)) := by
  rcases hlk : alookup h0 s.hostAndRtt.entries with _ | st
  · refine ⟨HostState.timeout d, ?_, Or.inl ⟨rfl, rfl⟩⟩
    simp only [RTTBasedHostSelector.setTimeout, LruCache.adjust, hlk]
    simp only [LruCache.put, hlk]
    split <;> rw [alookup_cons, if_pos rfl]
  · refine ⟨st.setTimout d now, ?_, Or.inr ⟨st, rfl, rfl⟩⟩
    simp only [RTTBasedHostSelector.setTimeout, LruCache.adjust, hlk]
    rw [alookup_cons, if_pos rfl]

/-! ### C7 and C10 -/

/-- C7: after `set_rtt(h, d)` the host is always selectable (`select [h]`
returns `h`); and after three consecutive `set_timeout(h)` calls with no
intervening success, `select [h]` returns nothing for the whole cool-down
window (60 seconds from the third timeout). -/
theorem c7_selector_rtt_and_timeout :
    (∀ (cap : Nat) (ops : List SelOp) (h : Host) (d now : Nat),
      ((runSelector cap ops).setRtt h d).select [h] now = some h) ∧
    (∀ (cap : Nat) (ops : List SelOp) (h : Host) (d t1 t2 t3 now : Nat),
      now ≤ t3 + TIMECOUNT_SERVER_SLEEP_TIME →
      ((((runSelector cap ops).setTimeout h d t1).setTimeout h d t2).setTimeout h d t3).select
        [h] now = none) := by
  constructor
  · intro cap ops h d now
    obtain ⟨st, hlk, hwn⟩ := setRtt_lookup (runSelector cap ops) h d (runSelector_inv cap ops)
    have husable : ((runSelector cap ops).setRtt h d).isHostUsable h now = true := by
      simp only [RTTBasedHostSelector.isHostUsable, hlk]
      simp only [HostState.isUsable, hwn]
    simp only [RTTBasedHostSelector.select, List.filter, husable]
    rfl
  · intro cap ops h d t1 t2 t3 now hle
    set s0 := runSelector cap ops with hs0
    have inv0 : selInv s0 := runSelector_inv cap ops
    obtain ⟨st1, hlk1, hcase1⟩ := setTimeout_lookup s0 h d t1
    have hst1 : 1 ≤ st1.timeoutCount ∧ st1.timeoutCount ≤ 3 := by
      rcases hcase1 with ⟨_, rfl⟩ | ⟨st0, hlk0, rfl⟩
      · simp [HostState.timeout]
      · have h0i : StInvP st0 := inv0 _ (alookup_mem hlk0)
        rw [setTimout_count st0 d t1 h0i.1]
        omega
    obtain ⟨st2, hlk2, hcase2⟩ := setTimeout_lookup (s0.setTimeout h d t1) h d t2
    have hst2 : 2 ≤ st2.timeoutCount ∧ st2.timeoutCount ≤ 3 := by
      rcases hcase2 with ⟨hnone, rfl⟩ | ⟨st0, hlk0, rfl⟩
      · rw [hlk1] at hnone
        cases hnone
      · rw [hlk1] at hlk0
        injection hlk0 with hst
        subst hst
        rw [setTimout_count st1 d t2 hst1.2]
        omega
    obtain ⟨st3, hlk3, hcase3⟩ := setTimeout_lookup ((s0.setTimeout h d t1).setTimeout h d t2)
      h d t3
    have hw3 : st3.wakeupTime = some (t3 + TIMECOUNT_SERVER_SLEEP_TIME) := by
      rcases hcase3 with ⟨hnone, rfl⟩ | ⟨st0, hlk0, rfl⟩
      · rw [hlk2] at hnone
        cases hnone
      · rw [hlk2] at hlk0
        injection hlk0 with hst
        subst hst
        exact setTimout_third st2 d t3 hst2.1 hst2.2
    have hunusable :
        ((((s0.setTimeout h d t1).setTimeout h d t2).setTimeout h d t3)).isHostUsable h now
          = false := by
      simp only [RTTBasedHostSelector.isHostUsable, hlk3]
      simp only [HostState.isUsable, hw3]
      simp only [decide_eq_false_iff_not]
      omega
    simp only [RTTBasedHostSelector.select, List.filter, hunusable]
    rfl

/-- C10: over every update history the consecutive-timeout count of a
host never exceeds MAX_TIMEOUT_COUNT (3); and once a host state carries
count 3, a further `set_timout` re-arms the wake-up time from the current
instant, keeps the count at 3, and leaves the smoothed RTT unchanged. -/
theorem c10_timeout_ceiling_and_rearm :
    (∀ (cap : Nat) (ops : List SelOp) (h : Host) (st : HostState),
      alookup h (runSelector cap ops).hostAndRtt.entries = some st →
      st.timeoutCount ≤ MAX_TIMEOUT_COUNT) ∧
    (∀ (st : HostState) (d now : Nat), st.timeoutCount = MAX_TIMEOUT_COUNT →
      (st.setTimout d now).rtt = st.rtt ∧
      (st.setTimout d now).timeoutCount = MAX_TIMEOUT_COUNT ∧
      (st.setTimout d now).wakeupTime = some (now + TIMECOUNT_SERVER_SLEEP_TIME)) := by
  constructor
  · intro cap ops h st hlk
    exact (runSelector_inv cap ops _ (alookup_mem hlk)).1
  · intro st d now h3
    simp only [MAX_TIMEOUT_COUNT] at h3
    simp only [HostState.setTimout, MAX_TIMEOUT_COUNT]
    rw [if_neg (show ¬ st.timeoutCount < 3 by omega)]
    rw [if_pos h3]
    exact ⟨rfl, h3, rfl⟩

/-- A concrete run, mirroring the source's selector unit test (with exact
integer arithmetic): the lower-RTT host is picked, and blending a large
sample moves the choice to the other host. -/
theorem selector_check :
    (runSelector 10 [SelOp.rtt 1 10, SelOp.rtt 2 12]).select [1, 2] 0 = some 1 ∧
    (runSelector 10 [SelOp.rtt 1 10, SelOp.rtt 2 12, SelOp.rtt 1 20]).select [1, 2] 0
      = some 2 := by
  constructor <;> rfl


/-! ## Trust levels (`src/cache/cache.rs`, `src/iterator/cache/message_util.rs`) -/

inductive RRsetTrustLevel where
  | additionalWithoutAA
  | authorityWithoutAA
  | additionalWithAA
  | nonAuthAnswerWithAA
  | answerWithoutAA
  | primGlue
  | authorityWithAA
  | answerWithAA
  | primNonGlue
deriving DecidableEq, Repr

/-- The derived total order of trust levels (declaration order). -/
def RRsetTrustLevel.toNat : RRsetTrustLevel → Nat
  | .additionalWithoutAA => 0
  | .authorityWithoutAA => 1
  | .additionalWithAA => 2
  | .nonAuthAnswerWithAA => 3
  | .answerWithoutAA => 4
  | .primGlue => 5
  | .authorityWithAA => 6
  | .answerWithAA => 7
  | .primNonGlue => 8

inductive SectionType where
  | answer
  | authority
  | additional
deriving DecidableEq, Repr

/-- `get_rrset_trust_level`.  By the time `MessageEntry::new` calls it
the question has already been taken out of the message, so the question
arrives as an `Option`; the source would unwrap `None` (a panic) exactly
when the AA flag is set on a CNAME answer rrset — the model demotes to
AnswerWithoutAA there. -/
def get_rrset_trust_level (rrset : RRset) (aa : Bool) (question : Option Question)
    (sec : SectionType) : RRsetTrustLevel :=
  match sec with
  | .answer =>
    if aa then
      match question with
      | some q =>
        if rrset.typ = RRType.cname ∧ ¬ (rrset.name = q.name) then .answerWithoutAA
        else .answerWithAA
      | none =>
        if rrset.typ = RRType.cname then .answerWithoutAA else .answerWithAA
    else .answerWithoutAA
  | .authority => if aa then .authorityWithAA else .authorityWithoutAA
  | .additional => if aa then .additionalWithAA else .additionalWithoutAA

/-! ## RRset cache

Modelled from the spec: the repository's `rrset_cache.rs` is not under
src (only its callers and tests are).  Spec 4.1: fixed-capacity
(name, type) → entry LRU; `get` returns the rrset with the remaining TTL
(removing expired entries); `add` inserts if absent, else replaces only
when the new trust level ≥ the existing one or the existing entry is
expired. -/

structure RRsetCacheEntry where
  rrset : RRset
  trust : RRsetTrustLevel
  expireTime : Nat
deriving DecidableEq, Repr

structure RRsetLruCache where
  cache : LruCache (DName × RRType) RRsetCacheEntry
deriving DecidableEq, Repr

namespace RRsetLruCache

def new (cap : Nat) : RRsetLruCache := ⟨LruCache.empty cap⟩

/-- Modelled from the spec: `get_rrset` — a miss on an absent or expired
key (expired entries are removed), otherwise the cached rrset with the
remaining TTL. -/
def getRrset (c : RRsetLruCache) (name : DName) (typ : RRType) (now : Nat) :
    Option RRset × RRsetLruCache :=
  match c.cache.get (name, typ) with
  | (none, _) => (none, c)
  | (some e, promoted) =>
    if e.expireTime ≤ now then (none, ⟨c.cache.pop (name, typ)⟩)
    else (some { e.rrset with ttl := e.expireTime - now }, ⟨promoted⟩)

/-- Modelled from the spec: `add_rrset` — insert if absent; replace only
when the new trust level is at least the cached one or the cached entry
is expired. -/
def addRrset (c : RRsetLruCache) (rrset : RRset) (trust : RRsetTrustLevel) (now : Nat) :
    RRsetLruCache :=
  match alookup (rrset.name, rrset.typ) c.cache.entries with
  | some old =>
    if old.trust.toNat ≤ trust.toNat ∨ old.expireTime ≤ now then
      ⟨c.cache.put (rrset.name, rrset.typ) ⟨rrset, trust, now + rrset.ttl⟩⟩
    else c
  | none => ⟨c.cache.put (rrset.name, rrset.typ) ⟨rrset, trust, now + rrset.ttl⟩⟩

end RRsetLruCache

/-! ## Message cache entry (`src/iterator/cache/message_cache_entry.rs`) -/

structure RRsetRef where
  name : DName
  typ : RRType
deriving DecidableEq, Repr

structure MessageEntry where
  name : DName
  typ : RRType
  rcode : Rcode
  answerRrsetCount : Nat
  authRrsetCount : Nat
  additionalRrsetCount : Nat
  rrsetRefs : List RRsetRef
  expireTime : Nat
deriving DecidableEq, Repr

/-- `u32::max_value()`, the initial minimum TTL. -/
def U32_MAX : Nat := 4294967295

namespace MessageEntry

/-- `MessageEntry::add_section`: push a reference for every rrset of the
section, fold the minimum TTL (strict comparison), and add each rrset to
the rrset cache with its trust level.  The question was already taken
from the message, so the trust computation receives `none`. -/
def addSection (aa : Bool) (sec : SectionType) (now : Nat) :
    List RRset → List RRsetRef → Nat → RRsetLruCache →
      List RRsetRef × Nat × RRsetLruCache
  | [], refs, minTtl, cache => (refs, minTtl, cache)
  | r :: rest, refs, minTtl, cache =>
    addSection aa sec now rest (refs ++ [(⟨r.name, r.typ⟩ : RRsetRef)])
      (if r.ttl < minTtl then r.ttl else minTtl)
      (cache.addRrset r (get_rrset_trust_level r aa none sec) now)

/-- `MessageEntry::new`: per-section counts, references in section order,
expiry = insertion time + the minimum TTL over all rrsets (`u32::MAX`
when there are none); every rrset is entered into the rrset cache.  The
source unwraps the question; when it is missing the model returns an
inert entry. -/
def new (message : Message) (rrsetCache : RRsetLruCache) (now : Nat) :
    MessageEntry × RRsetLruCache :=
  match message.question with
  | none => (⟨[], RRType.a, message.header.rcode, 0, 0, 0, [], now⟩, rrsetCache)
  | some q =>
    let answerCount := (sectionList message.answer).length
    let authCount := (sectionList message.authority).length
    let additionalCount := (sectionList message.additional).length
    let aa := message.header.aa
    let s1 := addSection aa SectionType.answer now (sectionList message.answer)
      [] U32_MAX rrsetCache
    let s2 := addSection aa SectionType.authority now (sectionList message.authority)
      s1.1 s1.2.1 s1.2.2
    let s3 := addSection aa SectionType.additional now (sectionList message.additional)
      s2.1 s2.2.1 s2.2.2
    (⟨q.name, q.typ, message.header.rcode, answerCount, authCount, additionalCount,
      s3.1, now + s3.2.1⟩, s3.2.2)

def isExpired (e : MessageEntry) (now : Nat) : Bool := e.expireTime ≤ now

def key (e : MessageEntry) : DName × RRType := (e.name, e.typ)

/-- `MessageEntry::get_rrsets`: fetch every referenced rrset in order,
threading the rrset-cache state; the first miss aborts with `none`. -/
def getRrsetsGo (now : Nat) : List RRsetRef → RRsetLruCache →
    Option (List RRset) × RRsetLruCache
  | [], rc => (some [], rc)
  | ref :: rest, rc =>
    match rc.getRrset ref.name ref.typ now with
    | (none, rc2) => (none, rc2)
    | (some r, rc2) =>
      match getRrsetsGo now rest rc2 with
      | (none, rc3) => (none, rc3)
      | (some rs, rc3) => (some (r :: rs), rc3)

def getRrsets (e : MessageEntry) (rc : RRsetLruCache) (now : Nat) :
    Option (List RRset) × RRsetLruCache :=
  getRrsetsGo now e.rrsetRefs rc

/-- `MessageEntry::gen_response`: nothing when expired; re-fetch every
referenced rrset, and on success rebuild the response from the request
with the entry's rcode, distributing the fetched rrsets over the three
sections by the stored counts. -/
def genResponse (e : MessageEntry) (req : Message) (rc : RRsetLruCache) (now : Nat) :
    Option Message × RRsetLruCache :=
  if e.isExpired now then (none, rc)
  else
    match e.getRrsets rc now with
    | (none, rc2) => (none, rc2)
    | (some rrsets, rc2) =>
      let ans := rrsets.take e.answerRrsetCount
      let auth := (rrsets.drop e.answerRrsetCount).take e.authRrsetCount
      let addl := ((rrsets.drop e.answerRrsetCount).drop e.authRrsetCount).take
        e.additionalRrsetCount
      (some { req with
        header := { req.header with qr := true, ra := true, rcode := e.rcode },
        answer := if 0 < e.answerRrsetCount then
            some (sectionList req.answer ++ ans) else req.answer,
        authority := if 0 < e.authRrsetCount then
            some (sectionList req.authority ++ auth) else req.authority,
        additional := if 0 < e.additionalRrsetCount then
            some (sectionList req.additional ++ addl) else req.additional }, rc2)

end MessageEntry

/-! ## Message LRU cache (`src/iterator/cache/message_cache.rs`) -/

def DEFAULT_MESSAGE_CACHE_SIZE : Nat := 10000

structure MessageLruCache where
  messages : LruCache (DName × RRType) MessageEntry
  rrsetCache : RRsetLruCache
deriving DecidableEq, Repr

namespace MessageLruCache

def new (cap : Nat) : MessageLruCache :=
  let c := if cap = 0 then DEFAULT_MESSAGE_CACHE_SIZE else cap
  ⟨LruCache.empty c, RRsetLruCache.new (2 * c)⟩

/-- `MessageLruCache::gen_response`: on a hit, rebuild from the entry; a
failed rebuild evicts the entry and misses.  On a message-cache miss the
source falls back to `rrset_cache.gen_response(request)`; `rrset_cache.rs`
is not under src and the spec does not describe that fallback, so it is
modelled as a miss. -/
def genResponse (c : MessageLruCache) (request : Message) (now : Nat) :
    Option Message × MessageLruCache :=
  match request.question with
  | none => (none, c)
  | some q =>
    match c.messages.get (q.name, q.typ) with
    | (some entry, promoted) =>
      match entry.genResponse request c.rrsetCache now with
      | (none, rc2) => (none, ⟨promoted.pop (q.name, q.typ), rc2⟩)
      | (some resp, rc2) => (some resp, ⟨promoted, rc2⟩)
    | (none, _) => (none, c)

/-- `MessageLruCache::add_response`: keep a fresh existing entry for the
question (the lookup still promotes it); otherwise build a new entry
(feeding its rrsets to the rrset cache), pop the stale key and store the
new entry. -/
def addResponse (c : MessageLruCache) (message : Message) (now : Nat) : MessageLruCache :=
  match message.question with
  | none => c
  | some q =>
    match c.messages.get (q.name, q.typ) with
    | (some entry, promoted) =>
      if ! (entry.isExpired now) then ⟨promoted, c.rrsetCache⟩
      else
        let r := MessageEntry.new message c.rrsetCache now
        ⟨(promoted.pop r.1.key).put r.1.key r.1, r.2⟩
    | (none, _) =>
      let r := MessageEntry.new message c.rrsetCache now
      ⟨(c.messages.pop r.1.key).put r.1.key r.1, r.2⟩

end MessageLruCache


/-! ### Association-list facts used by the cache proofs -/

/-- The keys of the entry list are pairwise distinct (always true of a
real `LruCache`; stated as a hypothesis where needed). -/
def NodupKeys {K V : Type} (l : List (K × V)) : Prop := (l.map Prod.fst).Nodup

theorem alookup_eraseKey_ne {K V : Type} [DecidableEq K] {k2 k : K}
    (hne : ¬ k2 = k) : ∀ (l : List (K × V)), alookup k2 (eraseKey k l) = alookup k2 l := by
  intro l
  induction l with
  | nil => rfl
  | cons e rest ih =>
    rcases e with ⟨k1, v1⟩
    rw [eraseKey_cons]
    by_cases hk : k1 = k
    · rw [if_pos hk, alookup_cons, if_neg (by rw [hk]; intro hx; exact hne hx.symm)]
    · rw [if_neg hk, alookup_cons, alookup_cons]
      by_cases h1 : k1 = k2
      · rw [if_pos h1, if_pos h1]
      · rw [if_neg h1, if_neg h1, ih]

theorem alookup_eq_none_iff {K V : Type} [DecidableEq K] {k : K} :
    ∀ {l : List (K × V)}, alookup k l = none ↔ k ∉ l.map Prod.fst := by
  intro l
  induction l with
  | nil => simp
  | cons e rest ih =>
    rcases e with ⟨k1, v1⟩
    rw [alookup_cons]
    by_cases hk : k1 = k
    · rw [if_pos hk]
      simp [hk]
    · rw [if_neg hk]
      simp only [List.map_cons, List.mem_cons]
      rw [ih]
      constructor
      · intro h hx
        rcases hx with hx | hx
        · exact hk hx.symm
        · exact h hx
      · intro h hx
        exact h (Or.inr hx)

theorem nodupKeys_eraseKey {K V : Type} [DecidableEq K] {l : List (K × V)} (k : K)
    (hnd : NodupKeys l) : NodupKeys (eraseKey k l) :=
  List.Nodup.sublist ((eraseKey_sublist k l).map Prod.fst) hnd

theorem alookup_eraseKey_self {K V : Type} [DecidableEq K] {k : K} :
    ∀ {l : List (K × V)}, NodupKeys l → alookup k (eraseKey k l) = none := by
  intro l
  induction l with
  | nil => intro _; rfl
  | cons e rest ih =>
    intro hnd
    rcases e with ⟨k1, v1⟩
    obtain ⟨hk1, hrest⟩ := List.nodup_cons.1 hnd
    rw [eraseKey_cons]
    by_cases hk : k1 = k
    · rw [if_pos hk]
      exact alookup_eq_none_iff.2 (by rw [← hk]; exact hk1)
    · rw [if_neg hk, alookup_cons, if_neg hk]
      exact ih hrest

theorem nodupKeys_promote {K V : Type} [DecidableEq K] {k : K} {l : List (K × V)}
    (hnd : NodupKeys l) (w : V) : NodupKeys ((k, w) :: eraseKey k l) := by
  refine List.nodup_cons.2 ⟨?_, nodupKeys_eraseKey k hnd⟩
  intro hmem
  have := alookup_eq_none_iff.1 (alookup_eraseKey_self hnd) hmem
  exact this

/-! ### Minimum-TTL fold -/

def minFold (m0 : Nat) (ts : List Nat) : Nat :=
  ts.foldl (fun a t => if t < a then t else a) m0

theorem minFold_le : ∀ (ts : List Nat) (m0 : Nat),
    minFold m0 ts ≤ m0 ∧ ∀ t ∈ ts, minFold m0 ts ≤ t := by
  intro ts
  induction ts with
  | nil => intro m0; exact ⟨Nat.le_refl _, by simp⟩
  | cons t rest ih =>
    intro m0
    have hstep : minFold m0 (t :: rest) = minFold (if t < m0 then t else m0) rest := rfl
    obtain ⟨h1, h2⟩ := ih (if t < m0 then t else m0)
    rw [hstep]
    refine ⟨h1.trans (by split <;> omega), ?_⟩
    intro t2 ht2
    rcases List.mem_cons.1 ht2 with rfl | ht2
    · exact h1.trans (by split <;> omega)
    · exact h2 t2 ht2

theorem minFold_mem : ∀ (ts : List Nat) (m0 : Nat),
    minFold m0 ts = m0 ∨ minFold m0 ts ∈ ts := by
  intro ts
  induction ts with
  | nil => intro m0; exact Or.inl rfl
  | cons t rest ih =>
    intro m0
    have hstep : minFold m0 (t :: rest) = minFold (if t < m0 then t else m0) rest := rfl
    rw [hstep]
    rcases ih (if t < m0 then t else m0) with h | h
    · rw [h]
      split
      · exact Or.inr (List.mem_cons_self _ _)
      · exact Or.inl rfl
    · exact Or.inr (List.mem_cons_of_mem _ h)

theorem addSection_min (aa : Bool) (sec : SectionType) (now : Nat) :
    ∀ (l : List RRset) (refs : List RRsetRef) (m0 : Nat) (rc : RRsetLruCache),
      (MessageEntry.addSection aa sec now l refs m0 rc).2.1 = minFold m0 (l.map RRset.ttl) := by
  intro l
  induction l with
  | nil => intro refs m0 rc; rfl
  | cons r rest ih =>
    intro refs m0 rc
    simp only [MessageEntry.addSection]
    rw [ih]
    rfl

/-! ### RRset availability -/

/-- A referenced rrset is available when the rrset cache holds an
unexpired entry under its key. -/
def refAvailable (rc : RRsetLruCache) (now : Nat) (ref : RRsetRef) : Bool :=
  match alookup (ref.name, ref.typ) rc.cache.entries with
  | some e => decide (now < e.expireTime)
  | none => false

theorem getRrset_fst_none_iff (rc : RRsetLruCache) (n : DName) (t : RRType) (now : Nat) :
    ((rc.getRrset n t now).1 = none) ↔ refAvailable rc now ⟨n, t⟩ = false := by
  unfold RRsetLruCache.getRrset LruCache.get refAvailable
  rcases hlk : alookup (n, t) rc.cache.entries with _ | e
  · simp
  · dsimp only
    by_cases hexp : e.expireTime ≤ now
    · rw [if_pos hexp]
      simp only [decide_eq_false_iff_not]
      constructor
      · intro _
        omega
      · intro _
        first | rfl | trivial
    · rw [if_neg hexp]
      simp only [decide_eq_false_iff_not]
      constructor
      · intro hx
        simp at hx
      · intro hx
        omega

theorem getRrset_nodup {rc : RRsetLruCache} {n : DName} {t : RRType} {now : Nat}
    (hnd : NodupKeys rc.cache.entries) :
    NodupKeys ((rc.getRrset n t now).2).cache.entries := by
  unfold RRsetLruCache.getRrset LruCache.get
  rcases hlk : alookup (n, t) rc.cache.entries with _ | e
  · exact hnd
  · dsimp only
    by_cases hexp : e.expireTime ≤ now
    · rw [if_pos hexp]
      exact nodupKeys_eraseKey _ hnd
    · rw [if_neg hexp]
      exact nodupKeys_promote hnd e

theorem getRrset_avail_pres {rc : RRsetLruCache} {n : DName} {t : RRType} {now : Nat}
    (hnd : NodupKeys rc.cache.entries) (ref2 : RRsetRef) :
    refAvailable ((rc.getRrset n t now).2) now ref2 = refAvailable rc now ref2 := by
  unfold RRsetLruCache.getRrset LruCache.get
  rcases hlk : alookup (n, t) rc.cache.entries with _ | e
  · rfl
  · dsimp only
    by_cases hexp : e.expireTime ≤ now
    · rw [if_pos hexp]
      unfold refAvailable LruCache.pop
      dsimp only
      by_cases hk2 : ((ref2.name, ref2.typ) : DName × RRType) = (n, t)
      · rw [hk2, alookup_eraseKey_self hnd, hlk]
        symm
        rw [decide_eq_false_iff_not]
        omega
      · rw [alookup_eraseKey_ne hk2]
    · rw [if_neg hexp]
      unfold refAvailable
      dsimp only
      rw [alookup_promote hlk]

theorem getRrsetsGo_none_iff (now : Nat) :
    ∀ (refs : List RRsetRef) (rc : RRsetLruCache), NodupKeys rc.cache.entries →
      ((MessageEntry.getRrsetsGo now refs rc).1 = none ↔
        ∃ ref ∈ refs, refAvailable rc now ref = false) := by
  intro refs
  induction refs with
  | nil => intro rc _; simp [MessageEntry.getRrsetsGo]
  | cons ref rest ih =>
    intro rc hnd
    simp only [MessageEntry.getRrsetsGo]
    rcases hava : refAvailable rc now ref with _ | _
    · have hnone : (rc.getRrset ref.name ref.typ now).1 = none :=
        (getRrset_fst_none_iff rc ref.name ref.typ now).2 hava
      rcases hg : rc.getRrset ref.name ref.typ now with ⟨o, rc2⟩
      rw [hg] at hnone
      dsimp only at hnone
      subst hnone
      dsimp only
      constructor
      · intro _
        exact ⟨ref, List.mem_cons_self _ _, hava⟩
      · intro _
        rfl
    · have hnn : ¬ ((rc.getRrset ref.name ref.typ now).1 = none) := by
        intro hx
        have := (getRrset_fst_none_iff rc ref.name ref.typ now).1 hx
        rw [hava] at this
        cases this
      have hnd2 : NodupKeys ((rc.getRrset ref.name ref.typ now).2).cache.entries :=
        getRrset_nodup hnd
      have hpres : ∀ ref2,
          refAvailable ((rc.getRrset ref.name ref.typ now).2) now ref2 =
            refAvailable rc now ref2 :=
        getRrset_avail_pres hnd
      have ihr := ih ((rc.getRrset ref.name ref.typ now).2) hnd2
      rcases hg : rc.getRrset ref.name ref.typ now with ⟨o, rc2⟩
      rw [hg] at hnn hnd2 ihr hpres
      dsimp only at hnn hnd2 ihr hpres
      rcases o with _ | r
      · exact absurd rfl hnn
      · dsimp only
        rcases hrec : MessageEntry.getRrsetsGo now rest rc2 with ⟨o2, rc3⟩
        rw [hrec] at ihr
        dsimp only at ihr
        rcases o2 with _ | rs
        · dsimp only
          obtain ⟨ref2, hmem, hunav⟩ := ihr.1 rfl
          rw [hpres ref2] at hunav
          constructor
          · intro _
            exact ⟨ref2, List.mem_cons_of_mem _ hmem, hunav⟩
          · intro _
            rfl
        · dsimp only
          constructor
          · intro hx
            first | exact hx.elim | simp at hx
          · intro hx
            obtain ⟨ref2, hmem, hunav⟩ := hx
            rcases List.mem_cons.1 hmem with rfl | hmem
            · rw [hava] at hunav
              cases hunav
            · exact (Option.some_ne_none _
                (ihr.2 ⟨ref2, hmem, by rw [hpres ref2]; exact hunav⟩)).elim

/-! ### C5: entry expiry and response rebuilding -/

def constituentRrsets (m : Message) : List RRset :=
  sectionList m.answer ++ sectionList m.authority ++ sectionList m.additional

/-- C5: (i) the expiry of a freshly built message entry equals the
insertion time plus the minimum TTL over the message's constituent
rrsets; (ii) `gen_response` on a cached entry returns nothing and evicts
the entry whenever the entry is expired or some referenced rrset is
missing from the rrset cache; (iii) when the entry is fresh and every
referenced rrset is available, it rebuilds a response carrying the
entry's stored rcode. -/
theorem c5_message_entry_expiry_and_rebuild :
    (∀ (m : Message) (rc : RRsetLruCache) (now : Nat) (q : Question),
      m.question = some q → ¬ (constituentRrsets m = []) →
      (∀ r ∈ constituentRrsets m, r.ttl ≤ U32_MAX) →
      ∃ t, (MessageEntry.new m rc now).1.expireTime = now + t ∧
        t ∈ (constituentRrsets m).map RRset.ttl ∧
        ∀ t2 ∈ (constituentRrsets m).map RRset.ttl, t ≤ t2) ∧
    (∀ (c : MessageLruCache) (request : Message) (q : Question) (entry : MessageEntry)
        (now : Nat),
      request.question = some q →
      NodupKeys c.messages.entries → NodupKeys c.rrsetCache.cache.entries →
      alookup (q.name, q.typ) c.messages.entries = some entry →
      (entry.isExpired now = true ∨
        ∃ ref ∈ entry.rrsetRefs, refAvailable c.rrsetCache now ref = false) →
      (c.genResponse request now).1 = none ∧
      alookup (q.name, q.typ) ((c.genResponse request now).2).messages.entries = none) ∧
    (∀ (c : MessageLruCache) (request : Message) (q : Question) (entry : MessageEntry)
        (now : Nat),
      request.question = some q →
      NodupKeys c.rrsetCache.cache.entries →
      alookup (q.name, q.typ) c.messages.entries = some entry →
      entry.isExpired now = false →
      (∀ ref ∈ entry.rrsetRefs, refAvailable c.rrsetCache now ref = true) →
      ∃ resp, (c.genResponse request now).1 = some resp ∧
        resp.header.rcode = entry.rcode) := by
  refine ⟨?_, ?_, ?_⟩
  · intro m rc now q hq hne hbound
    have hexpire : (MessageEntry.new m rc now).1.expireTime =
        now + minFold U32_MAX ((constituentRrsets m).map RRset.ttl) := by
      simp only [MessageEntry.new, hq]
      rw [addSection_min, addSection_min, addSection_min]
      unfold constituentRrsets
      rw [List.map_append, List.map_append]
      unfold minFold
      rw [List.foldl_append, List.foldl_append]
    rcases minFold_mem ((constituentRrsets m).map RRset.ttl) U32_MAX with hm | hm
    · obtain ⟨r0, hr0⟩ := List.exists_mem_of_ne_nil _ hne
      have ht0 : r0.ttl ∈ (constituentRrsets m).map RRset.ttl :=
        List.mem_map_of_mem _ hr0
      have hlow := (minFold_le ((constituentRrsets m).map RRset.ttl) U32_MAX).2 _ ht0
      have hup := hbound r0 hr0
      have heq : minFold U32_MAX ((constituentRrsets m).map RRset.ttl) = r0.ttl := by
        rw [hm] at hlow ⊢
        omega
      exact ⟨r0.ttl, by rw [hexpire, heq], ht0,
        fun t2 ht2 => by
          have := (minFold_le ((constituentRrsets m).map RRset.ttl) U32_MAX).2 t2 ht2
          rw [heq] at this
          exact this⟩
    · exact ⟨_, hexpire, hm,
        fun t2 ht2 => (minFold_le ((constituentRrsets m).map RRset.ttl) U32_MAX).2 t2 ht2⟩
  · intro c request q entry now hq hndm hndr hlk hfail
    have hgen : (entry.genResponse request c.rrsetCache now).1 = none := by
      unfold MessageEntry.genResponse
      rcases hfail with hexp | hmiss
      · rw [if_pos hexp]
      · by_cases hexp : entry.isExpired now = true
        · rw [if_pos hexp]
        · rw [if_neg hexp]
          have hnone : (entry.getRrsets c.rrsetCache now).1 = none := by
            unfold MessageEntry.getRrsets
            exact (getRrsetsGo_none_iff now entry.rrsetRefs c.rrsetCache hndr).2 hmiss
          rcases hrr : entry.getRrsets c.rrsetCache now with ⟨o, rc2⟩
          rw [hrr] at hnone
          dsimp only at hnone
          subst hnone
          rfl
    simp only [MessageLruCache.genResponse, hq, LruCache.get, hlk]
    rcases hgr : entry.genResponse request c.rrsetCache now with ⟨o, rc2⟩
    rw [hgr] at hgen
    dsimp only at hgen
    subst hgen
    dsimp only
    refine ⟨rfl, ?_⟩
    show alookup (q.name, q.typ)
      (eraseKey (q.name, q.typ)
        (((q.name, q.typ), entry) :: eraseKey (q.name, q.typ) c.messages.entries)) = none
    rw [eraseKey_cons, if_pos rfl]
    exact alookup_eraseKey_self hndm
  · intro c request q entry now hq hndr hlk hexp hall
    have hsome : ¬ ((entry.getRrsets c.rrsetCache now).1 = none) := by
      unfold MessageEntry.getRrsets
      rw [getRrsetsGo_none_iff now entry.rrsetRefs c.rrsetCache hndr]
      rintro ⟨ref, hmem, hbad⟩
      rw [hall ref hmem] at hbad
      cases hbad
    simp only [MessageLruCache.genResponse, hq, LruCache.get, hlk]
    unfold MessageEntry.genResponse
    rw [if_neg (by rw [hexp]; intro hx; cases hx)]
    rcases hrr : entry.getRrsets c.rrsetCache now with ⟨o, rc2⟩
    rw [hrr] at hsome
    dsimp only at hsome
    rcases o with _ | rrsets
    · exact absurd rfl hsome
    · dsimp only
      exact ⟨_, rfl, rfl⟩

/-! ### C9: add_response with a fresh existing entry -/

/-- The question key already has an unexpired cached entry. -/
def hasFreshEntry (c : MessageLruCache) (key : DName × RRType) (now : Nat) : Bool :=
  match alookup key c.messages.entries with
  | some e => ! (e.isExpired now)
  | none => false

/-- The literal form of claim C9: with a fresh entry present,
`add_response` leaves the cache completely unchanged. -/
def addResponseClaimC9 : Prop :=
  ∀ (c : MessageLruCache) (m : Message) (q : Question) (now : Nat),
    m.question = some q → hasFreshEntry c (q.name, q.typ) now = true →
    c.addResponse m now = c

def c9m1 : Message :=
  { header := { id := 1, qr := true, aa := false, ra := false, rd := false,
                opcode := Opcode.query, rcode := Rcode.noError },
    question := some ⟨[1], RRType.a⟩, answer := none, authority := none, additional := none }

def c9m2 : Message :=
  { header := { id := 2, qr := true, aa := false, ra := false, rd := false,
                opcode := Opcode.query, rcode := Rcode.noError },
    question := some ⟨[2], RRType.a⟩, answer := none, authority := none, additional := none }

/-- Two entries, the older one keyed by `[1]`. -/
def c9cache : MessageLruCache :=
  ((MessageLruCache.new 100).addResponse c9m1 0).addResponse c9m2 0

/-- C9 counterexample: the lookup guarding the early return promotes the
entry to most-recently-used, so the cache state (its recency order) does
change even though the response is discarded. -/
theorem c9_counterexample : ¬ addResponseClaimC9 := by
  intro hc
  exact absurd (hc c9cache c9m1 ⟨[1], RRType.a⟩ 5 rfl (by decide)) (by decide)

/-- C9 (amended): with a fresh entry under the question, `add_response`
discards the response: no entry is added, removed or replaced — every
key maps to the same entry as before and the entry list is merely
permuted (the fresh entry is promoted to most-recently-used) — and the
rrset cache and capacity are untouched. -/
theorem c9_add_response_keeps_fresh_entry
    (c : MessageLruCache) (m : Message) (q : Question) (now : Nat)
    (hq : m.question = some q)
    (hfresh : hasFreshEntry c (q.name, q.typ) now = true) :
    (∀ k, alookup k ((c.addResponse m now).messages.entries) =
      alookup k c.messages.entries) ∧
    List.Perm ((c.addResponse m now).messages.entries) c.messages.entries ∧
    (c.addResponse m now).messages.cap = c.messages.cap ∧
    (c.addResponse m now).rrsetCache = c.rrsetCache := by
  unfold hasFreshEntry at hfresh
  rcases hlk : alookup (q.name, q.typ) c.messages.entries with _ | e
  · rw [hlk] at hfresh
    cases hfresh
  · rw [hlk] at hfresh
    dsimp only at hfresh
    simp only [MessageLruCache.addResponse, hq, LruCache.get, hlk]
    rw [if_pos hfresh]
    exact ⟨alookup_promote hlk, promote_perm hlk, rfl, rfl⟩

/-- Witness for the amended C9 at the concrete two-entry cache. -/
theorem c9_add_response_witness :
    (∀ k, alookup k ((c9cache.addResponse c9m1 5).messages.entries) =
      alookup k c9cache.messages.entries) ∧
    List.Perm ((c9cache.addResponse c9m1 5).messages.entries) c9cache.messages.entries ∧
    (c9cache.addResponse c9m1 5).messages.cap = c9cache.messages.cap ∧
    (c9cache.addResponse c9m1 5).rrsetCache = c9cache.rrsetCache :=
  c9_add_response_keeps_fresh_entry c9cache c9m1 ⟨[1], RRType.a⟩ 5 rfl (by decide)

/-! ### Concrete checks of the message cache -/

def smokeRR : RRset := ⟨[1, 2], RRType.a, 100, [RData.aData 7]⟩

def smokeResp : Message :=
  { header := { id := 9, qr := true, aa := false, ra := false, rd := false,
                opcode := Opcode.query, rcode := Rcode.noError },
    question := some ⟨[1, 2], RRType.a⟩, answer := some [smokeRR],
    authority := none, additional := none }

def smokeQuery : Message :=
  { header := { id := 4, qr := false, aa := false, ra := false, rd := false,
                opcode := Opcode.query, rcode := Rcode.noError },
    question := some ⟨[1, 2], RRType.a⟩, answer := none,
    authority := none, additional := none }

def smokeCache : MessageLruCache := (MessageLruCache.new 100).addResponse smokeResp 0

/-- A cached response is rebuilt with the elapsed time deducted from the
TTL; once the minimum TTL has elapsed the lookup misses and the entry is
evicted. -/
theorem message_cache_check :
    ((smokeCache.genResponse smokeQuery 10).1 =
      some { smokeQuery with
        header := { smokeQuery.header with qr := true, ra := true, rcode := Rcode.noError },
        answer := some [⟨[1, 2], RRType.a, 90, [RData.aData 7]⟩] }) ∧
    ((smokeCache.genResponse smokeQuery 100).1 = none) ∧
    alookup ([1, 2], RRType.a)
      ((smokeCache.genResponse smokeQuery 100).2).messages.entries = none := by
  refine ⟨by decide, by decide, by decide⟩


/-! ## Iterator state machine (`src/iterator/iterator.rs`)

Control-flow model of `Iterator::do_resolve`: per-event counters and
states, with the chain of base events as an explicit stack of frames
(head = nearest base event; an event's depth is the length of its
stack, as computed by `IterEvent::get_depth`).  The environment's
choices — cache hits, delegation points, upstream reply categories,
client errors — are oracle inputs. -/

def MAX_CNAME_REDIRECT_COUNT : Nat := 8

def MAX_DEPENDENT_QUERY_COUNT : Nat := 4

def MAX_REFERRAL_COUNT : Nat := 10

def MAX_ERROR_COUNT : Nat := 5

inductive QueryState where
  | initQuery
  | queryTarget
  | queryResponse
  | primeResponse
  | targetResponse
  | finished
deriving DecidableEq, Repr

structure Frame where
  state : QueryState
  finalState : QueryState
  queryRestartCount : Nat
  referralCount : Nat
  errorCount : Nat
  respCat : Option ResponseCategory
  servFailed : Bool
deriving DecidableEq, Repr

structure MachineEvent where
  frame : Frame
  parents : List Frame
deriving DecidableEq, Repr

/-- `IterEvent::get_depth`: the number of base events below. -/
def MachineEvent.depth (e : MachineEvent) : Nat := e.parents.length

def newFrame (init final : QueryState) : Frame :=
  ⟨init, final, 0, 0, 0, none, false⟩

/-- `Iterator::error_response`: record a ServFail response and jump to
the event's final state. -/
def errorResponseF (f : Frame) : Frame :=
  { f with servFailed := true, respCat := some ResponseCategory.serverFail,
           state := f.finalState }

inductive InitInput where
  | cacheHit
  | cnameHit
  | dpFound
  | noDp

inductive TargetInput where
  | response (cat : ResponseCategory)
  | queryError (timedOut : Bool)
  | noHost (hasMissingServer : Bool)

inductive StepInput where
  | init (i : InitInput)
  | target (t : TargetInput)
  | consume

/-- `Iterator::process_init_query`: budget guards, then cache lookup,
delegation-point lookup, or root priming (which switches to a sub-event
whose final state is PrimeResponse). -/
def processInitQuery (e : MachineEvent) (inp : InitInput) : MachineEvent :=
  if MAX_CNAME_REDIRECT_COUNT < e.frame.queryRestartCount then
    { e with frame := errorResponseF e.frame }
  else if MAX_DEPENDENT_QUERY_COUNT < e.depth then
    { e with frame := errorResponseF e.frame }
  else
    match inp with
    | .cacheHit =>
      { e with frame := { e.frame with respCat := some ResponseCategory.answer,
                                       state := e.frame.finalState } }
    | .cnameHit =>
      { e with frame := { e.frame with respCat := some ResponseCategory.cName,
                                       state := QueryState.queryResponse } }
    | .dpFound =>
      { e with frame := { e.frame with state := QueryState.queryTarget } }
    | .noDp =>
      ⟨newFrame QueryState.queryTarget QueryState.primeResponse, e.frame :: e.parents⟩

/-- `Iterator::process_query_target`: budget guard, then either an
upstream reply (a ServerFail category marks the server lame and stays), a
client error (counted, or ServFail past the wall clock), or — with no
usable host — a glue-resolving sub-event or ServFail. -/
def processQueryTarget (e : MachineEvent) (inp : TargetInput) : MachineEvent :=
  if MAX_REFERRAL_COUNT < e.frame.referralCount ∨ MAX_ERROR_COUNT < e.frame.errorCount then
    { e with frame := errorResponseF e.frame }
  else
    match inp with
    | .response cat =>
      match cat with
      | ResponseCategory.serverFail => e
      | _ => { e with frame := { e.frame with respCat := some cat,
                                              state := QueryState.queryResponse } }
    | .queryError timedOut =>
      if timedOut then { e with frame := errorResponseF e.frame }
      else { e with frame := { e.frame with errorCount := e.frame.errorCount + 1 } }
    | .noHost hasMissing =>
      if hasMissing then
        ⟨newFrame QueryState.initQuery QueryState.targetResponse, e.frame :: e.parents⟩
      else { e with frame := errorResponseF e.frame }

/-- `Iterator::process_query_response`: final on an answer, descend on a
referral, restart on a CNAME, re-select otherwise. -/
def processQueryResponse (e : MachineEvent) : MachineEvent :=
  match e.frame.respCat with
  | some ResponseCategory.answer | some ResponseCategory.nxDomain
  | some ResponseCategory.nxRRset =>
    { e with frame := { e.frame with state := e.frame.finalState } }
  | some ResponseCategory.referral =>
    { e with frame := { e.frame with respCat := none,
                                     referralCount := e.frame.referralCount + 1,
                                     state := QueryState.queryTarget } }
  | some ResponseCategory.cName =>
    { e with frame := { e.frame with respCat := none,
                                     queryRestartCount := e.frame.queryRestartCount + 1,
                                     state := QueryState.initQuery } }
  | _ =>
    { e with frame := { e.frame with respCat := none,
                                     state := QueryState.queryTarget } }

/-- `Iterator::process_prime_response`: resume the base event; a root
answer puts it back in QueryTarget, anything else is ServFail. -/
def processPrimeResponse (e : MachineEvent) : MachineEvent :=
  match e.parents with
  | [] => e
  | base :: rest =>
    match e.frame.respCat with
    | some ResponseCategory.answer =>
      ⟨{ base with state := QueryState.queryTarget }, rest⟩
    | _ => ⟨errorResponseF base, rest⟩

/-- `Iterator::process_target_response`: resume the base event in
QueryTarget (glue merging and probed marking do not change control). -/
def processTargetResponse (e : MachineEvent) : MachineEvent :=
  match e.parents with
  | [] => e
  | base :: rest => ⟨{ base with state := QueryState.queryTarget }, rest⟩

def stepMachine (e : MachineEvent) (inp : StepInput) : MachineEvent :=
  match e.frame.state with
  | QueryState.initQuery =>
    match inp with
    | .init i => processInitQuery e i
    | _ => e
  | QueryState.queryTarget =>
    match inp with
    | .target t => processQueryTarget e t
    | _ => e
  | QueryState.queryResponse => processQueryResponse e
  | QueryState.primeResponse => processPrimeResponse e
  | QueryState.targetResponse => processTargetResponse e
  | QueryState.finished => e

def initMachineEvent : MachineEvent :=
  ⟨newFrame QueryState.initQuery QueryState.finished, []⟩

def runMachine (inputs : List StepInput) : MachineEvent :=
  inputs.foldl stepMachine initMachineEvent


/-! ### Budgets: the literal claim and its counterexample -/

/-- The literal form of claim C1's bounds, for the current event of every
reachable machine state. -/
def budgetsClaimC1 : Prop :=
  ∀ inputs : List StepInput,
    (runMachine inputs).frame.queryRestartCount ≤ MAX_CNAME_REDIRECT_COUNT ∧
    (runMachine inputs).frame.referralCount ≤ MAX_REFERRAL_COUNT ∧
    (runMachine inputs).frame.errorCount ≤ MAX_ERROR_COUNT ∧
    (runMachine inputs).depth ≤ MAX_DEPENDENT_QUERY_COUNT

/-- Four levels of glue-resolving sub-events (each passes the depth guard
at depths 0..4), then a root priming from depth 4: the prime sub-event
lives at depth 5. -/
def c1trace : List StepInput :=
  [StepInput.init InitInput.dpFound, StepInput.target (TargetInput.noHost true),
   StepInput.init InitInput.dpFound, StepInput.target (TargetInput.noHost true),
   StepInput.init InitInput.dpFound, StepInput.target (TargetInput.noHost true),
   StepInput.init InitInput.dpFound, StepInput.target (TargetInput.noHost true),
   StepInput.init InitInput.noDp]

theorem c1_counterexample : ¬ budgetsClaimC1 := by
  intro hc
  exact absurd (hc c1trace) (by decide)

/-! ### The provable budget invariant -/

/-- Counter and depth bounds by state: the guards let counters reach one
past their maxima (and a prime sub-event one past the depth limit, its
glue sub-event two past) before the next guard finalizes the event. -/
def frameBudget (f : Frame) (d : Nat) : Prop :=
  match f.state with
  | QueryState.initQuery =>
    f.queryRestartCount ≤ 9 ∧ f.referralCount ≤ 10 ∧ f.errorCount ≤ 5 ∧ d ≤ 6
  | QueryState.queryTarget =>
    f.queryRestartCount ≤ 8 ∧ f.referralCount ≤ 11 ∧ f.errorCount ≤ 6 ∧ d ≤ 5
  | QueryState.queryResponse =>
    f.queryRestartCount ≤ 8 ∧ f.referralCount ≤ 10 ∧ f.errorCount ≤ 5 ∧ d ≤ 5
  | QueryState.primeResponse =>
    f.queryRestartCount ≤ 9 ∧ f.referralCount ≤ 11 ∧ f.errorCount ≤ 6 ∧ d ≤ 5
  | QueryState.targetResponse =>
    f.queryRestartCount ≤ 9 ∧ f.referralCount ≤ 11 ∧ f.errorCount ≤ 6 ∧ d ≤ 6
  | QueryState.finished =>
    f.queryRestartCount ≤ 9 ∧ f.referralCount ≤ 11 ∧ f.errorCount ≤ 6 ∧ d ≤ 6

/-- Events only ever carry final states Finished (the root request),
PrimeResponse (root priming, depth at most 5) or TargetResponse (glue
resolution). -/
def finalOK (f : Frame) (d : Nat) : Prop :=
  (f.finalState = QueryState.finished ∨ f.finalState = QueryState.primeResponse ∨
   f.finalState = QueryState.targetResponse) ∧
  (f.finalState = QueryState.primeResponse → d ≤ 5) ∧ d ≤ 6

/-- What holds of a frame frozen on the parent stack: it was suspended in
InitQuery (priming, depth ≤ 4) or QueryTarget (glue, depth ≤ 5) with all
guards passed. -/
def frozenOK (f : Frame) (d : Nat) : Prop :=
  ((f.state = QueryState.initQuery ∧ d ≤ 4) ∨
   (f.state = QueryState.queryTarget ∧ d ≤ 5)) ∧
  f.queryRestartCount ≤ 8 ∧ f.referralCount ≤ 10 ∧ f.errorCount ≤ 5 ∧ finalOK f d

def stackOK : List Frame → Prop
  | [] => True
  | f :: rest => frozenOK f rest.length ∧ stackOK rest

def EventInv (e : MachineEvent) : Prop :=
  frameBudget e.frame e.parents.length ∧ finalOK e.frame e.parents.length ∧
    stackOK e.parents

theorem fb_counters {f : Frame} {d : Nat} (h : frameBudget f d) :
    f.queryRestartCount ≤ 9 ∧ f.referralCount ≤ 11 ∧ f.errorCount ≤ 6 ∧ d ≤ 6 := by
  unfold frameBudget at h
  split at h <;> omega

theorem fb_init {f : Frame} {d : Nat} (h : frameBudget f d)
    (hst : f.state = QueryState.initQuery) :
    f.queryRestartCount ≤ 9 ∧ f.referralCount ≤ 10 ∧ f.errorCount ≤ 5 ∧ d ≤ 6 := by
  unfold frameBudget at h
  rw [hst] at h
  exact h

theorem fb_target {f : Frame} {d : Nat} (h : frameBudget f d)
    (hst : f.state = QueryState.queryTarget) :
    f.queryRestartCount ≤ 8 ∧ f.referralCount ≤ 11 ∧ f.errorCount ≤ 6 ∧ d ≤ 5 := by
  unfold frameBudget at h
  rw [hst] at h
  exact h

theorem fb_response {f : Frame} {d : Nat} (h : frameBudget f d)
    (hst : f.state = QueryState.queryResponse) :
    f.queryRestartCount ≤ 8 ∧ f.referralCount ≤ 10 ∧ f.errorCount ≤ 5 ∧ d ≤ 5 := by
  unfold frameBudget at h
  rw [hst] at h
  exact h

/-- A frame whose state moves to its final state (with unchanged
counters and final state) keeps the invariant. -/
theorem toFinal_budget {f : Frame} {d : Nat} (hb : frameBudget f d) (hf : finalOK f d)
    (g : Frame) (hg1 : g.state = f.finalState) (hg2 : g.finalState = f.finalState)
    (hgc : g.queryRestartCount = f.queryRestartCount ∧
      g.referralCount = f.referralCount ∧ g.errorCount = f.errorCount) :
    frameBudget g d ∧ finalOK g d := by
  have hc := fb_counters hb
  obtain ⟨hfs, hp, hd6⟩ := hf
  constructor
  · unfold frameBudget
    rw [hg1]
    rcases hfs with h | h | h <;> rw [h]
    · omega
    · have := hp h
      omega
    · omega
  · unfold finalOK
    rw [hg2]
    exact ⟨hfs, fun hx => hp hx, hd6⟩

theorem frozen_to_budget {f : Frame} {d : Nat} (h : frozenOK f d) : frameBudget f d := by
  obtain ⟨hst, h1, h2, h3, _⟩ := h
  unfold frameBudget
  rcases hst with ⟨h, hd⟩ | ⟨h, hd⟩ <;> rw [h] <;> omega

theorem errorResponse_inv {f : Frame} {d : Nat} (hb : frameBudget f d) (hf : finalOK f d) :
    frameBudget (errorResponseF f) d ∧ finalOK (errorResponseF f) d :=
  toFinal_budget hb hf (errorResponseF f) rfl rfl ⟨rfl, rfl, rfl⟩

theorem stepMachine_inv (e : MachineEvent) (inp : StepInput) (h : EventInv e) :
    EventInv (stepMachine e inp) := by
  rcases e with ⟨fr, ps⟩
  obtain ⟨hb, hf, hs⟩ := h
  replace hb : frameBudget fr ps.length := hb
  replace hf : finalOK fr ps.length := hf
  replace hs : stackOK ps := hs
  cases hstate : fr.state with
  | initQuery =>
    cases inp with
    | init i =>
      simp only [stepMachine, hstate]
      obtain ⟨h9, h10, h5, h6⟩ := fb_init hb hstate
      simp only [processInitQuery, MachineEvent.depth]
      by_cases hg1 : MAX_CNAME_REDIRECT_COUNT < fr.queryRestartCount
      · rw [if_pos hg1]
        obtain ⟨hb2, hf2⟩ := errorResponse_inv hb hf
        exact ⟨hb2, hf2, hs⟩
      · rw [if_neg hg1]
        by_cases hg2 : MAX_DEPENDENT_QUERY_COUNT < ps.length
        · rw [if_pos hg2]
          obtain ⟨hb2, hf2⟩ := errorResponse_inv hb hf
          exact ⟨hb2, hf2, hs⟩
        · rw [if_neg hg2]
          simp only [MAX_CNAME_REDIRECT_COUNT] at hg1
          simp only [MAX_DEPENDENT_QUERY_COUNT] at hg2
          cases i with
          | cacheHit =>
            obtain ⟨hb2, hf2⟩ := toFinal_budget hb hf
              { fr with respCat := some ResponseCategory.answer,
                        state := fr.finalState } rfl rfl ⟨rfl, rfl, rfl⟩
            exact ⟨hb2, hf2, hs⟩
          | cnameHit =>
            refine ⟨?_, hf, hs⟩
            unfold frameBudget
            dsimp only
            omega
          | dpFound =>
            refine ⟨?_, hf, hs⟩
            unfold frameBudget
            dsimp only
            omega
          | noDp =>
            refine ⟨?_, ?_, ?_⟩
            · unfold frameBudget newFrame
              dsimp only [List.length_cons]
              omega
            · unfold finalOK newFrame
              dsimp only [List.length_cons]
              exact ⟨Or.inr (Or.inl rfl), fun _ => by omega, by omega⟩
            · exact ⟨⟨Or.inl ⟨hstate, by omega⟩, by omega, by omega, by omega, hf⟩, hs⟩
    | target _ =>
      simp only [stepMachine, hstate]
      exact ⟨hb, hf, hs⟩
    | consume =>
      simp only [stepMachine, hstate]
      exact ⟨hb, hf, hs⟩
  | queryTarget =>
    cases inp with
    | init _ =>
      simp only [stepMachine, hstate]
      exact ⟨hb, hf, hs⟩
    | consume =>
      simp only [stepMachine, hstate]
      exact ⟨hb, hf, hs⟩
    | target t =>
      simp only [stepMachine, hstate]
      obtain ⟨h8, h11, h6, h5⟩ := fb_target hb hstate
      simp only [processQueryTarget]
      by_cases hg : MAX_REFERRAL_COUNT < fr.referralCount ∨ MAX_ERROR_COUNT < fr.errorCount
      · rw [if_pos hg]
        obtain ⟨hb2, hf2⟩ := errorResponse_inv hb hf
        exact ⟨hb2, hf2, hs⟩
      · rw [if_neg hg]
        simp only [MAX_REFERRAL_COUNT, MAX_ERROR_COUNT, not_or, Nat.not_lt] at hg
        obtain ⟨hg10, hg5⟩ := hg
        cases t with
        | response cat =>
          cases cat <;> dsimp only <;>
            first
              | exact ⟨hb, hf, hs⟩
              | (refine ⟨?_, hf, hs⟩
                 unfold frameBudget
                 dsimp only
                 omega)
        | queryError timedOut =>
          cases timedOut with
          | true =>
            dsimp only
            rw [if_pos rfl]
            obtain ⟨hb2, hf2⟩ := errorResponse_inv hb hf
            exact ⟨hb2, hf2, hs⟩
          | false =>
            dsimp only
            rw [if_neg (by simp)]
            refine ⟨?_, hf, hs⟩
            unfold frameBudget
            dsimp only
            rw [hstate]
            dsimp only
            omega
        | noHost hasMissing =>
          cases hasMissing with
          | true =>
            dsimp only
            rw [if_pos rfl]
            refine ⟨?_, ?_, ?_⟩
            · unfold frameBudget newFrame
              dsimp only [List.length_cons]
              omega
            · unfold finalOK newFrame
              dsimp only [List.length_cons]
              refine ⟨Or.inr (Or.inr rfl), fun hx => ?_, by omega⟩
              exact absurd hx (by decide)
            · exact ⟨⟨Or.inr ⟨hstate, by omega⟩, by omega, by omega, by omega, hf⟩, hs⟩
          | false =>
            dsimp only
            rw [if_neg (by simp)]
            obtain ⟨hb2, hf2⟩ := errorResponse_inv hb hf
            exact ⟨hb2, hf2, hs⟩
  | queryResponse =>
    simp only [stepMachine, hstate]
    obtain ⟨h8, h10, h5a, h5b⟩ := fb_response hb hstate
    simp only [processQueryResponse]
    rcases hrc : fr.respCat with _ | cat
    · refine ⟨?_, hf, hs⟩
      unfold frameBudget
      dsimp only
      omega
    · cases cat
      case answer =>
        obtain ⟨hb2, hf2⟩ := toFinal_budget hb hf
          { fr with state := fr.finalState } rfl rfl ⟨rfl, rfl, rfl⟩
        exact ⟨hb2, hf2, hs⟩
      case nxDomain =>
        obtain ⟨hb2, hf2⟩ := toFinal_budget hb hf
          { fr with state := fr.finalState } rfl rfl ⟨rfl, rfl, rfl⟩
        exact ⟨hb2, hf2, hs⟩
      case nxRRset =>
        obtain ⟨hb2, hf2⟩ := toFinal_budget hb hf
          { fr with state := fr.finalState } rfl rfl ⟨rfl, rfl, rfl⟩
        exact ⟨hb2, hf2, hs⟩
      case referral =>
        refine ⟨?_, hf, hs⟩
        unfold frameBudget
        dsimp only
        omega
      case cName =>
        refine ⟨?_, hf, hs⟩
        unfold frameBudget
        dsimp only
        omega
      case serverFail =>
        refine ⟨?_, hf, hs⟩
        unfold frameBudget
        dsimp only
        omega
  | primeResponse =>
    simp only [stepMachine, hstate]
    simp only [processPrimeResponse]
    rcases ps with _ | ⟨base, rest⟩
    · exact ⟨hb, hf, hs⟩
    · obtain ⟨hfz, hrest⟩ := hs
      have hfb : frameBudget base rest.length := frozen_to_budget hfz
      obtain ⟨hst, hc8, hc10, hc5, hffin⟩ := hfz
      rcases hrc : fr.respCat with _ | cat
      · obtain ⟨hb2, hf2⟩ := errorResponse_inv hfb hffin
        exact ⟨hb2, hf2, hrest⟩
      · cases cat
        case answer =>
          refine ⟨?_, hffin, hrest⟩
          unfold frameBudget
          dsimp only
          rcases hst with ⟨_, hd⟩ | ⟨_, hd⟩ <;> omega
        all_goals
          obtain ⟨hb2, hf2⟩ := errorResponse_inv hfb hffin
        all_goals
          exact ⟨hb2, hf2, hrest⟩
  | targetResponse =>
    simp only [stepMachine, hstate]
    simp only [processTargetResponse]
    rcases ps with _ | ⟨base, rest⟩
    · exact ⟨hb, hf, hs⟩
    · obtain ⟨hfz, hrest⟩ := hs
      obtain ⟨hst, hc8, hc10, hc5, hffin⟩ := hfz
      refine ⟨?_, hffin, hrest⟩
      unfold frameBudget
      dsimp only
      rcases hst with ⟨_, hd⟩ | ⟨_, hd⟩ <;> omega
  | finished =>
    simp only [stepMachine, hstate]
    exact ⟨hb, hf, hs⟩

theorem machine_inv (inputs : List StepInput) : EventInv (runMachine inputs) := by
  have hgen : ∀ (l : List StepInput) (e : MachineEvent), EventInv e →
      EventInv (l.foldl stepMachine e) := by
    intro l
    induction l with
    | nil => intro e he; exact he
    | cons inp rest ih =>
      intro e he
      exact ih _ (stepMachine_inv e inp he)
  refine hgen inputs initMachineEvent ⟨?_, ?_, trivial⟩
  · unfold frameBudget initMachineEvent newFrame
    dsimp only
    simp only [List.length_nil]
    omega
  · unfold finalOK initMachineEvent newFrame
    dsimp only
    exact ⟨Or.inl rfl, fun hx => absurd hx (by decide), by simp⟩

theorem stackOK_mem : ∀ {ps : List Frame}, stackOK ps → ∀ f ∈ ps,
    f.queryRestartCount ≤ 8 ∧ f.referralCount ≤ 10 ∧ f.errorCount ≤ 5 := by
  intro ps
  induction ps with
  | nil => intro _ f hf; cases hf
  | cons g rest ih =>
    intro h f hf
    obtain ⟨hg, hrest⟩ := h
    rcases List.mem_cons.1 hf with rfl | hf
    · exact ⟨hg.2.1, hg.2.2.1, hg.2.2.2.1⟩
    · exact ih hrest f hf

/-- C1 (amended): the budgets hold one step beyond the constants — the
current event's CNAME-restart counter never exceeds MAX_CNAME + 1, the
referral counter MAX_REFERRAL + 1, the error counter MAX_ERROR + 1, and
the sub-event stack depth MAX_DEPENDENT + 2 (a prime sub-event may sit at
depth MAX_DEPENDENT + 1 and spawn one glue sub-event); every suspended
parent event satisfies the strict bounds; and whenever a guard sees a
budget exceeded, the step finalizes the event with a ServFail response
(no resolution work is done). -/
theorem c1_budgets_amended :
    (∀ inputs : List StepInput,
      (runMachine inputs).frame.queryRestartCount ≤ MAX_CNAME_REDIRECT_COUNT + 1 ∧
      (runMachine inputs).frame.referralCount ≤ MAX_REFERRAL_COUNT + 1 ∧
      (runMachine inputs).frame.errorCount ≤ MAX_ERROR_COUNT + 1 ∧
      (runMachine inputs).depth ≤ MAX_DEPENDENT_QUERY_COUNT + 2 ∧
      ∀ f ∈ (runMachine inputs).parents,
        f.queryRestartCount ≤ MAX_CNAME_REDIRECT_COUNT ∧
        f.referralCount ≤ MAX_REFERRAL_COUNT ∧ f.errorCount ≤ MAX_ERROR_COUNT) ∧
    (∀ (e : MachineEvent) (i : InitInput),
      e.frame.state = QueryState.initQuery →
      (MAX_CNAME_REDIRECT_COUNT < e.frame.queryRestartCount ∨
       MAX_DEPENDENT_QUERY_COUNT < e.depth) →
      stepMachine e (.init i) = { e with frame := errorResponseF e.frame }) ∧
    (∀ (e : MachineEvent) (t : TargetInput),
      e.frame.state = QueryState.queryTarget →
      (MAX_REFERRAL_COUNT < e.frame.referralCount ∨
       MAX_ERROR_COUNT < e.frame.errorCount) →
      stepMachine e (.target t) = { e with frame := errorResponseF e.frame }) ∧
    (∀ f : Frame, (errorResponseF f).servFailed = true ∧
      (errorResponseF f).respCat = some ResponseCategory.serverFail ∧
      (errorResponseF f).state = f.finalState) := by
  refine ⟨?_, ?_, ?_, ?_⟩
  · intro inputs
    obtain ⟨hb, _, hs⟩ := machine_inv inputs
    have hc := fb_counters hb
    simp only [MAX_CNAME_REDIRECT_COUNT, MAX_REFERRAL_COUNT, MAX_ERROR_COUNT,
      MAX_DEPENDENT_QUERY_COUNT, MachineEvent.depth]
    refine ⟨by omega, by omega, by omega, by omega, ?_⟩
    exact stackOK_mem hs
  · intro e i hstate hguard
    simp only [stepMachine, hstate]
    simp only [processInitQuery]
    rcases hguard with hg | hg
    · rw [if_pos hg]
    · by_cases hg1 : MAX_CNAME_REDIRECT_COUNT < e.frame.queryRestartCount
      · rw [if_pos hg1]
      · rw [if_neg hg1, if_pos hg]
  · intro e t hstate hguard
    simp only [stepMachine, hstate]
    simp only [processQueryTarget]
    rw [if_pos hguard]
  · intro f
    exact ⟨rfl, rfl, rfl⟩


/-! ### Event completion: error responses and the final composed response -/

/-- `IterEvent`, restricted to the fields that `error_response`,
`generate_final_response` and `process_finished` read or write
(`orignal_request` keeps the source's spelling). -/
structure IterEventM where
  orignalRequest : Message
  currentRequest : Option Message
  response : Option Message
  prependRrsets : List RRset
  state : QueryState
  finalState : QueryState
  queryRestartCount : Nat
deriving Repr

/-- `IterEvent::get_request`: the rewritten current request when a CNAME
restart installed one, else the original request. -/
def IterEventM.getRequest (e : IterEventM) : Message :=
  e.currentRequest.getD e.orignalRequest

/-- `Iterator::error_response`: clone the current request, turn it into a
response (r53 `MessageBuilder::make_response` sets the QR header flag)
carrying the given rcode, store it on the event and jump to the event's
final state. -/
def errorResponseM (e : IterEventM) (rcode : Rcode) : IterEventM :=
  { e with
    response := some { e.getRequest with
      header := { e.getRequest.header with qr := true, rcode := rcode } },
    state := e.finalState }

/-- `IterEvent::generate_final_response`: take the stored response
(`None` panics in the source, modelled as `none`); unless its rcode is
ServFail or nothing was collected, replace the answer section with the
collected prepend rrsets followed by the old answers; overwrite the
question with the original request's question; set RecursionAvailable,
clear AuthAnswer and restore the original request's id. -/
def generateFinalResponse (e : IterEventM) : Option Message :=
  match e.response with
  | none => none
  | some resp0 =>
    some { header := { id := e.orignalRequest.header.id,
                       qr := resp0.header.qr,
                       aa := false,
                       ra := true,
                       rd := resp0.header.rd,
                       opcode := resp0.header.opcode,
                       rcode := resp0.header.rcode },
           question := e.orignalRequest.question,
           answer :=
             if resp0.header.rcode ≠ Rcode.servFail ∧ e.prependRrsets ≠ [] then
               some (e.prependRrsets ++ sectionList resp0.answer)
             else resp0.answer,
           authority := resp0.authority,
           additional := resp0.additional }

/-- `Iterator::process_finished`: remember whether any CNAME restart
happened, compose the final response, and insert it into the message
cache exactly when a restart happened and the final rcode is NoError. -/
def processFinished (cache : MessageLruCache) (now : Nat) (e : IterEventM) :
    Option (Message × MessageLruCache) :=
  match generateFinalResponse e with
  | none => none
  | some resp =>
    if 0 < e.queryRestartCount ∧ resp.header.rcode = Rcode.noError then
      some (resp, cache.addResponse resp now)
    else some (resp, cache)

/-- C4: on every failure path the iterator calls `error_response` with
ServFail; the event then reaches its final state, and composing the final
response never panics and yields a proper DNS response: rcode ServFail,
the original request's question (even when CNAME restarts rewrote the
current request), the original id, and QR/RA set with AA cleared. -/
theorem c4_failed_resolution_servfail_response (e : IterEventM) :
    (errorResponseM e Rcode.servFail).state = e.finalState ∧
    ∃ resp, generateFinalResponse (errorResponseM e Rcode.servFail) = some resp ∧
      resp.header.rcode = Rcode.servFail ∧
      resp.question = e.orignalRequest.question ∧
      resp.header.id = e.orignalRequest.header.id ∧
      resp.header.qr = true ∧ resp.header.ra = true ∧ resp.header.aa = false :=
  ⟨rfl, _, rfl, rfl, rfl, rfl, rfl, rfl, rfl⟩

/-- C6: whenever the finished event composes a final response, that
response goes back into the message cache precisely when the resolution
performed at least one CNAME restart and the final rcode is NoError; and
the composed response carries the original request's question, so the
insertion is keyed by the original question. -/
theorem c6_recache_iff_restart_and_noerror
    (cache : MessageLruCache) (now : Nat) (e : IterEventM) (resp : Message)
    (h : generateFinalResponse e = some resp) :
    (0 < e.queryRestartCount ∧ resp.header.rcode = Rcode.noError →
      processFinished cache now e = some (resp, cache.addResponse resp now)) ∧
    (¬ (0 < e.queryRestartCount ∧ resp.header.rcode = Rcode.noError) →
      processFinished cache now e = some (resp, cache)) ∧
    resp.question = e.orignalRequest.question := by
  unfold processFinished
  rw [h]
  refine ⟨fun hc => by dsimp only; rw [if_pos hc],
    fun hc => by dsimp only; rw [if_neg hc], ?_⟩
  unfold generateFinalResponse at h
  rcases hr : e.response with _ | resp0
  · rw [hr] at h
    exact absurd h (by simp)
  · rw [hr] at h
    dsimp only at h
    injection h with h2
    rw [← h2]


def c6req : Message :=
  { header := { id := 7, qr := false, aa := false, ra := false, rd := true,
                opcode := Opcode.query, rcode := Rcode.noError },
    question := some ⟨[3], RRType.a⟩,
    answer := none, authority := none, additional := none }

def c6ev : IterEventM :=
  { orignalRequest := c6req,
    currentRequest := none,
    response := some { c6req with
      header := { c6req.header with qr := true, rcode := Rcode.noError },
      answer := some [⟨[3], RRType.a, 60, [RData.aData 1]⟩] },
    prependRrsets := [],
    state := QueryState.finished,
    finalState := QueryState.finished,
    queryRestartCount := 1 }

def c6respF : Message :=
  { header := { id := 7, qr := true, aa := false, ra := true, rd := true,
                opcode := Opcode.query, rcode := Rcode.noError },
    question := some ⟨[3], RRType.a⟩,
    answer := some [⟨[3], RRType.a, 60, [RData.aData 1]⟩],
    authority := none, additional := none }

theorem c6_recache_witness :
    (0 < c6ev.queryRestartCount ∧ c6respF.header.rcode = Rcode.noError →
      processFinished (MessageLruCache.new 8) 0 c6ev =
        some (c6respF, (MessageLruCache.new 8).addResponse c6respF 0)) ∧
    (¬ (0 < c6ev.queryRestartCount ∧ c6respF.header.rcode = Rcode.noError) →
      processFinished (MessageLruCache.new 8) 0 c6ev =
        some (c6respF, MessageLruCache.new 8)) ∧
    c6respF.question = c6ev.orignalRequest.question :=
  c6_recache_iff_restart_and_noerror (MessageLruCache.new 8) 0 c6ev c6respF (by decide)


end Vanguard
